import Mathlib

/-!
Verification development for the clixon configuration transaction core:
a shallow embedding of the XML object model, the transaction flag-marking
pass, the commit/validate engine of backend_commit.c, the changelog
upgrader of clixon_xml_changelog.c and the XML serializers of
clixon_xml_io.c, together with theorems settling the specified claims.
-/

namespace Clixon

/-- XML object types, from enum cxobj_type (CX_ELMNT, CX_ATTR, CX_BODY). -/
inductive CxType where
  | elmnt
  | attr
  | body
deriving DecidableEq, Repr

/-- Transient per-node flag bit XML_FLAG_MARK from clixon_xml.h. -/
def XML_FLAG_MARK : Nat := 0x01

/-- Transient per-node flag bit XML_FLAG_ADD from clixon_xml.h. -/
def XML_FLAG_ADD : Nat := 0x04

/-- Transient per-node flag bit XML_FLAG_DEL from clixon_xml.h. -/
def XML_FLAG_DEL : Nat := 0x08

/-- Transient per-node flag bit XML_FLAG_CHANGE from clixon_xml.h. -/
def XML_FLAG_CHANGE : Nat := 0x10

/-- XML node (cxobj): local name, optional namespace prefix, node type,
optional body/attribute value, transient flag bitmask, ordered children. -/
inductive Cxobj where
  | mk (name : String) (nsp : Option String) (typ : CxType)
       (value : Option String) (flags : Nat) (children : List Cxobj)

/-- xml_name accessor. -/
def Cxobj.name : Cxobj → String
  | .mk n _ _ _ _ _ => n

/-- xml_prefix accessor. -/
def Cxobj.nsp : Cxobj → Option String
  | .mk _ p _ _ _ _ => p

/-- xml_type accessor. -/
def Cxobj.typ : Cxobj → CxType
  | .mk _ _ ty _ _ _ => ty

/-- xml_value accessor. -/
def Cxobj.value : Cxobj → Option String
  | .mk _ _ _ v _ _ => v

/-- xml_flag accessor (the raw bitmask). -/
def Cxobj.flags : Cxobj → Nat
  | .mk _ _ _ _ fl _ => fl

/-- Ordered child list. -/
def Cxobj.children : Cxobj → List Cxobj
  | .mk _ _ _ _ _ cs => cs

/-- Accessor reduction on the constructor. -/
@[simp] theorem Cxobj_name_mk (n : String) (p : Option String) (ty : CxType)
    (v : Option String) (fl : Nat) (cs : List Cxobj) :
    (Cxobj.mk n p ty v fl cs).name = n := rfl

/-- Accessor reduction on the constructor. -/
@[simp] theorem Cxobj_nsp_mk (n : String) (p : Option String) (ty : CxType)
    (v : Option String) (fl : Nat) (cs : List Cxobj) :
    (Cxobj.mk n p ty v fl cs).nsp = p := rfl

/-- Accessor reduction on the constructor. -/
@[simp] theorem Cxobj_typ_mk (n : String) (p : Option String) (ty : CxType)
    (v : Option String) (fl : Nat) (cs : List Cxobj) :
    (Cxobj.mk n p ty v fl cs).typ = ty := rfl

/-- Accessor reduction on the constructor. -/
@[simp] theorem Cxobj_value_mk (n : String) (p : Option String) (ty : CxType)
    (v : Option String) (fl : Nat) (cs : List Cxobj) :
    (Cxobj.mk n p ty v fl cs).value = v := rfl

/-- Accessor reduction on the constructor. -/
@[simp] theorem Cxobj_flags_mk (n : String) (p : Option String) (ty : CxType)
    (v : Option String) (fl : Nat) (cs : List Cxobj) :
    (Cxobj.mk n p ty v fl cs).flags = fl := rfl

/-- Accessor reduction on the constructor. -/
@[simp] theorem Cxobj_children_mk (n : String) (p : Option String) (ty : CxType)
    (v : Option String) (fl : Nat) (cs : List Cxobj) :
    (Cxobj.mk n p ty v fl cs).children = cs := rfl

/-- xml_flag(x, f): test whether any bit of mask f is set on x. -/
def xml_flag (x : Cxobj) (f : Nat) : Bool :=
  x.flags &&& f != 0

/-- xml_flag_set(x, f): or the mask f into the node's flags. -/
def xml_flag_set (x : Cxobj) (f : Nat) : Cxobj :=
  match x with
  | .mk n p ty v fl cs => .mk n p ty v (fl ||| f) cs

/-- xml_flag_reset(x, f): clear the bits of mask f (x_flags &= ~f). -/
def xml_flag_reset (x : Cxobj) (f : Nat) : Cxobj :=
  match x with
  | .mk n p ty v fl cs => .mk n p ty v (fl - (fl &&& f)) cs

/-- xml_name_set(x, name). -/
def xml_name_set (x : Cxobj) (s : String) : Cxobj :=
  match x with
  | .mk _ p ty v fl cs => .mk s p ty v fl cs

mutual
/-- Per-child worker of xml_apply(xn, CX_ELMNT, xml_flag_set, f): set flag
mask f on the child if it is an element, then descend into its children. -/
def xml_apply_flag_set_child (f : Nat) : Cxobj → Cxobj
  | .mk n p ty v fl cs =>
      .mk n p ty v (if ty = .elmnt then fl ||| f else fl)
        (xml_apply_flag_set_list f cs)

/-- Child-list worker of xml_apply_flag_set. -/
def xml_apply_flag_set_list (f : Nat) : List Cxobj → List Cxobj
  | [] => []
  | c :: cs => xml_apply_flag_set_child f c :: xml_apply_flag_set_list f cs
end

/-- xml_apply(xn, CX_ELMNT, xml_flag_set, f): set flag mask f on every
element node strictly below x (fn is applied to each matching child, then
recursion descends into the child). -/
def xml_apply_flag_set (f : Nat) (x : Cxobj) : Cxobj :=
  match x with
  | .mk n p ty v fl cs => .mk n p ty v fl (xml_apply_flag_set_list f cs)

mutual
/-- Per-child worker of xml_apply(xn, CX_ELMNT, xml_flag_reset, f). -/
def xml_apply_flag_reset_child (f : Nat) : Cxobj → Cxobj
  | .mk n p ty v fl cs =>
      .mk n p ty v (if ty = .elmnt then fl - (fl &&& f) else fl)
        (xml_apply_flag_reset_list f cs)

/-- Child-list worker of xml_apply_flag_reset. -/
def xml_apply_flag_reset_list (f : Nat) : List Cxobj → List Cxobj
  | [] => []
  | c :: cs => xml_apply_flag_reset_child f c :: xml_apply_flag_reset_list f cs
end

/-- xml_apply0(xt, CX_ELMNT, xml_flag_reset, f): reset flag mask f on x
itself (if an element) and on every element below it. -/
def xml_apply0_flag_reset (f : Nat) (x : Cxobj) : Cxobj :=
  match if x.typ = .elmnt then xml_flag_reset x f else x with
  | .mk n p ty v fl cs => .mk n p ty v fl (xml_apply_flag_reset_list f cs)

/-- A position in an XML tree: the list of child indices from the root. -/
abbrev XPathIdx := List Nat

/-- The node of t at position p, if p is a valid position. -/
def nodeAt : Cxobj → XPathIdx → Option Cxobj
  | x, [] => some x
  | x, i :: p =>
    match x.children.get? i with
    | none => none
    | some c => nodeAt c p

/-- Replace the i-th entry of a list through g (identity if out of range). -/
def listModify (g : α → α) : Nat → List α → List α
  | _, [] => []
  | 0, a :: as => g a :: as
  | i + 1, a :: as => a :: listModify g i as

/-- Apply g to the node of t at position p, in place (identity if p is not a
valid position). -/
def modifyAt (g : Cxobj → Cxobj) : XPathIdx → Cxobj → Cxobj
  | [], x => g x
  | i :: p, .mk n np ty v fl cs => .mk n np ty v fl (listModify (modifyAt g p) i cs)

/-- The strict prefixes of a position, outermost first: these index the
ancestors of the node at that position. -/
def properPrefixes : XPathIdx → List XPathIdx
  | [] => []
  | i :: p => [] :: (properPrefixes p).map (i :: ·)

/-- xml_apply_ancestor(xn, xml_flag_set, f): set flag mask f on every strict
ancestor of the node at position p. -/
def xml_apply_ancestor_flag_set (t : Cxobj) (p : XPathIdx) (f : Nat) : Cxobj :=
  (properPrefixes p).foldl (fun acc q => modifyAt (xml_flag_set · f) q acc) t

/-- The flag test at a position (false if the position is invalid). -/
def flagAt (t : Cxobj) (p : XPathIdx) (f : Nat) : Bool :=
  match nodeAt t p with
  | some x => xml_flag x f
  | none => false

/-- The node type at a position. -/
def typAt (t : Cxobj) (p : XPathIdx) : Option CxType :=
  (nodeAt t p).map Cxobj.typ

/-- The marking applied in validate_common to a node of the deleted vector:
set XML_FLAG_DEL on the node and its element descendants, and
XML_FLAG_CHANGE on its ancestors. -/
def markDelAt (t : Cxobj) (p : XPathIdx) : Cxobj :=
  xml_apply_ancestor_flag_set
    (modifyAt (fun x => xml_apply_flag_set XML_FLAG_DEL (xml_flag_set x XML_FLAG_DEL)) p t)
    p XML_FLAG_CHANGE

/-- The marking applied in validate_common to a node of the added vector:
set XML_FLAG_ADD on the node and its element descendants, and
XML_FLAG_CHANGE on its ancestors. -/
def markAddAt (t : Cxobj) (p : XPathIdx) : Cxobj :=
  xml_apply_ancestor_flag_set
    (modifyAt (fun x => xml_apply_flag_set XML_FLAG_ADD (xml_flag_set x XML_FLAG_ADD)) p t)
    p XML_FLAG_CHANGE

/-- The marking applied in validate_common to an endpoint of a changed pair:
set XML_FLAG_CHANGE on the node and on its ancestors. -/
def markChangeAt (t : Cxobj) (p : XPathIdx) : Cxobj :=
  xml_apply_ancestor_flag_set
    (modifyAt (fun x => xml_flag_set x XML_FLAG_CHANGE) p t)
    p XML_FLAG_CHANGE

/-- The flag-marking pass of validate_common on the source (running) tree:
every deleted node is marked with markDelAt, every source endpoint of a
changed pair with markChangeAt. -/
def mark_diff_src (src : Cxobj) (dvec scvec : List XPathIdx) : Cxobj :=
  scvec.foldl markChangeAt (dvec.foldl markDelAt src)

/-- The flag-marking pass of validate_common on the target (candidate) tree:
every added node is marked with markAddAt, every target endpoint of a
changed pair with markChangeAt. -/
def mark_diff_tgt (tgt : Cxobj) (avec tcvec : List XPathIdx) : Cxobj :=
  tcvec.foldl markChangeAt (avec.foldl markAddAt tgt)

/-- A natural number with a set bit is nonzero, under or. -/
theorem land_ne_zero_of_lor_left {a m : Nat} (f : Nat) (h : a &&& m ≠ 0) :
    (a ||| f) &&& m ≠ 0 := by
  intro hc
  apply h
  apply Nat.zero_of_testBit_eq_false
  intro i
  have hbit := congrArg (Nat.testBit · i) hc
  simp only [Nat.testBit_land, Nat.testBit_lor, Nat.zero_testBit] at hbit
  simp only [Nat.testBit_land]
  cases ha : a.testBit i <;> cases hm : m.testBit i <;> simp_all

/-- Setting a nonzero mask makes the flag test of that mask succeed. -/
theorem lor_land_self_ne_zero (a : Nat) {f : Nat} (hf : f ≠ 0) :
    (a ||| f) &&& f ≠ 0 := by
  intro hc
  apply hf
  apply Nat.zero_of_testBit_eq_false
  intro i
  have hbit := congrArg (Nat.testBit · i) hc
  simp only [Nat.testBit_land, Nat.testBit_lor, Nat.zero_testBit] at hbit
  cases h : f.testBit i
  · rfl
  · simp [h] at hbit

/-- Splitting a position into two legs splits the node lookup. -/
theorem nodeAt_append (t : Cxobj) (p r : XPathIdx) :
    nodeAt t (p ++ r) = (nodeAt t p).bind (fun x => nodeAt x r) := by
  induction p generalizing t with
  | nil => simp [nodeAt]
  | cons i p ih =>
      cases t with
      | mk n np ty v fl cs =>
        simp only [List.cons_append, nodeAt, Cxobj.children]
        cases h : cs.get? i with
        | none => simp
        | some c => simpa using ih c

/-- listModify at index i rewrites the i-th entry through g. -/
theorem listModify_get_eq (g : α → α) (i : Nat) (l : List α) :
    (listModify g i l).get? i = (l.get? i).map g := by
  induction l generalizing i with
  | nil => simp [listModify]
  | cons a as ih =>
      cases i with
      | zero => simp [listModify]
      | succ j => simpa [listModify] using ih j

/-- listModify leaves other indices alone. -/
theorem listModify_get_ne (g : α → α) {i j : Nat} (h : i ≠ j) (l : List α) :
    (listModify g i l).get? j = l.get? j := by
  induction l generalizing i j with
  | nil => simp [listModify]
  | cons a as ih =>
      cases i with
      | zero =>
          cases j with
          | zero => exact absurd rfl h
          | succ j' => simp [listModify]
      | succ i' =>
          cases j with
          | zero => simp [listModify]
          | succ j' => simpa [listModify] using ih (fun hc => h (by rw [hc]))

/-- listModify is the identity when the element is fixed by g. -/
theorem listModify_id_of_fix (g : α → α) {i : Nat} {l : List α} {a : α}
    (hget : l.get? i = some a) (hfix : g a = a) : listModify g i l = l := by
  induction l generalizing i with
  | nil => simp [listModify]
  | cons b bs ih =>
      cases i with
      | zero =>
          simp only [List.get?] at hget
          cases hget
          simp [listModify, hfix]
      | succ i' =>
          simp only [List.get?] at hget
          simp [listModify, ih hget]

/-- listModify out of range is the identity. -/
theorem listModify_oob (g : α → α) {i : Nat} {l : List α}
    (h : l.get? i = none) : listModify g i l = l := by
  induction l generalizing i with
  | nil => simp [listModify]
  | cons b bs ih =>
      cases i with
      | zero => simp [List.get?] at h
      | succ i' =>
          simp only [List.get?] at h
          simp [listModify, ih h]

/-- modifyAt at an invalid position is the identity. -/
theorem modifyAt_of_invalid (g : Cxobj → Cxobj) (p : XPathIdx) (t : Cxobj)
    (h : nodeAt t p = none) : modifyAt g p t = t := by
  induction p generalizing t with
  | nil => simp [nodeAt] at h
  | cons i p ih =>
      cases t with
      | mk n np ty v fl cs =>
        simp only [nodeAt, Cxobj.children] at h
        cases hc : cs.get? i with
        | none => simp [modifyAt, listModify_oob _ hc]
        | some c =>
            rw [hc] at h
            simp [modifyAt, listModify_id_of_fix _ hc (ih c h)]

/-- Modifying at p and then descending along p continues inside the image of
the modified node. -/
theorem nodeAt_modifyAt_append (g : Cxobj → Cxobj) (p r : XPathIdx)
    (t x : Cxobj) (h : nodeAt t p = some x) :
    nodeAt (modifyAt g p t) (p ++ r) = nodeAt (g x) r := by
  induction p generalizing t with
  | nil =>
      simp only [nodeAt] at h
      cases h
      simp [modifyAt, nodeAt]
  | cons i p ih =>
      cases t with
      | mk n np ty v fl cs =>
        simp only [nodeAt, Cxobj.children] at h
        cases hc : cs.get? i with
        | none => rw [hc] at h; simp at h
        | some c =>
            rw [hc] at h
            simp only [modifyAt, List.cons_append, nodeAt, Cxobj.children]
            rw [listModify_get_eq, hc]
            exact ih c h

/-- Outside the subtree rooted at p, modifyAt changes neither flags nor node
types. -/
theorem modifyAt_outside_subtree (g : Cxobj → Cxobj) {p q : XPathIdx} (t : Cxobj)
    (h : ¬ p <+: q) :
    (∀ f, flagAt (modifyAt g p t) q f = flagAt t q f) ∧
      typAt (modifyAt g p t) q = typAt t q := by
  induction q generalizing p t with
  | nil =>
      cases p with
      | nil => exact absurd (List.prefix_refl []) h
      | cons i p' =>
          cases t with
          | mk n np ty v fl cs =>
            constructor
            · intro f
              simp [modifyAt, flagAt, nodeAt, xml_flag, Cxobj.flags]
            · simp [modifyAt, typAt, nodeAt, Cxobj.typ]
  | cons j q' ih =>
      cases p with
      | nil => exact absurd List.nil_prefix h
      | cons i p' =>
          cases t with
          | mk n np ty v fl cs =>
            by_cases hij : i = j
            · subst hij
              have hpq : ¬ p' <+: q' := fun hc => h (List.cons_prefix_cons.mpr ⟨rfl, hc⟩)
              constructor
              · intro f
                simp only [modifyAt, flagAt, nodeAt, Cxobj.children]
                rw [listModify_get_eq]
                cases hc : cs.get? i with
                | none => simp
                | some c => simpa using (ih c hpq).1 f
              · simp only [modifyAt, typAt, nodeAt, Cxobj.children]
                rw [listModify_get_eq]
                cases hc : cs.get? i with
                | none => simp
                | some c => simpa [typAt] using (ih c hpq).2
            · constructor
              · intro f
                simp only [modifyAt, flagAt, nodeAt, Cxobj.children]
                rw [listModify_get_ne _ hij]
              · simp only [modifyAt, typAt, nodeAt, Cxobj.children]
                rw [listModify_get_ne _ hij]

/-- The list worker of xml_apply_flag_set is a map of the child worker. -/
theorem apply_flag_set_list_eq_map (f : Nat) (cs : List Cxobj) :
    xml_apply_flag_set_list f cs = cs.map (xml_apply_flag_set_child f) := by
  induction cs with
  | nil => rfl
  | cons c cs ih => simp [xml_apply_flag_set_list, ih]

/-- The child worker and the top-level xml_apply_flag_set agree below the
root. -/
theorem apply_flag_set_child_children (f : Nat) (x : Cxobj) :
    (xml_apply_flag_set_child f x).children = xml_apply_flag_set_list f x.children := by
  cases x with
  | mk n p ty v fl cs => rfl

/-- xml_apply_flag_set keeps the root flags. -/
theorem apply_flag_set_root_flags (f : Nat) (x : Cxobj) :
    (xml_apply_flag_set f x).flags = x.flags := by
  cases x with
  | mk n p ty v fl cs => rfl

/-- xml_apply_flag_set does not change node types anywhere. -/
theorem typAt_apply_flag_set_child (f : Nat) (q : XPathIdx) (x : Cxobj) :
    typAt (xml_apply_flag_set_child f x) q = typAt x q := by
  induction q generalizing x with
  | nil =>
      cases x with
      | mk n p ty v fl cs => simp [xml_apply_flag_set_child, typAt, nodeAt, Cxobj.typ]
  | cons j q' ih =>
      cases x with
      | mk n p ty v fl cs =>
        simp only [typAt, nodeAt, xml_apply_flag_set_child, Cxobj.children,
          apply_flag_set_list_eq_map, List.get?_map]
        cases hc : cs.get? j with
        | none => simp
        | some c => simpa [typAt] using ih c

/-- xml_apply_flag_set does not change node types anywhere (root version). -/
theorem typAt_apply_flag_set (f : Nat) (q : XPathIdx) (x : Cxobj) :
    typAt (xml_apply_flag_set f x) q = typAt x q := by
  cases q with
  | nil =>
      cases x with
      | mk n p ty v fl cs => simp [xml_apply_flag_set, typAt, nodeAt, Cxobj.typ]
  | cons j q' =>
      cases x with
      | mk n p ty v fl cs =>
        simp only [typAt, nodeAt, xml_apply_flag_set, Cxobj.children,
          apply_flag_set_list_eq_map, List.get?_map]
        cases hc : cs.get? j with
        | none => simp
        | some c => simpa [typAt] using typAt_apply_flag_set_child f q' c

/-- xml_flag_set does not change node types anywhere. -/
theorem typAt_flag_set (f : Nat) (q : XPathIdx) (x : Cxobj) :
    typAt (xml_flag_set x f) q = typAt x q := by
  cases x with
  | mk n p ty v fl cs =>
    cases q with
    | nil => simp [xml_flag_set, typAt, nodeAt, Cxobj.typ]
    | cons j q' => simp [xml_flag_set, typAt, nodeAt, Cxobj.children]

/-- xml_flag_set only adds flag bits. -/
theorem flagAt_flag_set_mono (f0 : Nat) (q : XPathIdx) (m : Nat) (x : Cxobj)
    (h : flagAt x q m = true) : flagAt (xml_flag_set x f0) q m = true := by
  cases x with
  | mk n p ty v fl cs =>
    cases q with
    | nil =>
        simp only [flagAt, nodeAt, xml_flag, bne_iff_ne, ne_eq, Cxobj.flags] at h ⊢
        simp only [xml_flag_set]
        exact land_ne_zero_of_lor_left f0 h
    | cons j q' => simpa [xml_flag_set, flagAt, nodeAt, Cxobj.children] using h

/-- xml_apply_flag_set only adds flag bits (child worker). -/
theorem flagAt_apply_flag_set_child_mono (f0 : Nat) (q : XPathIdx) (m : Nat)
    (x : Cxobj) (h : flagAt x q m = true) :
    flagAt (xml_apply_flag_set_child f0 x) q m = true := by
  induction q generalizing x with
  | nil =>
      cases x with
      | mk n p ty v fl cs =>
        simp only [flagAt, nodeAt, xml_flag, bne_iff_ne, ne_eq, Cxobj.flags] at h ⊢
        simp only [xml_apply_flag_set_child]
        by_cases hty : ty = CxType.elmnt
        · simpa [hty] using land_ne_zero_of_lor_left f0 h
        · simpa [hty] using h
  | cons j q' ih =>
      cases x with
      | mk n p ty v fl cs =>
        simp only [flagAt, nodeAt, xml_apply_flag_set_child, Cxobj.children,
          apply_flag_set_list_eq_map, List.get?_map] at h ⊢
        cases hc : cs.get? j with
        | none => rw [hc] at h; simp at h
        | some c =>
            rw [hc] at h
            simpa [flagAt] using ih c (by simpa [flagAt] using h)

/-- xml_apply_flag_set only adds flag bits. -/
theorem flagAt_apply_flag_set_mono (f0 : Nat) (q : XPathIdx) (m : Nat)
    (x : Cxobj) (h : flagAt x q m = true) :
    flagAt (xml_apply_flag_set f0 x) q m = true := by
  cases q with
  | nil =>
      cases x with
      | mk n p ty v fl cs => simpa [xml_apply_flag_set, flagAt, nodeAt] using h
  | cons j q' =>
      cases x with
      | mk n p ty v fl cs =>
        simp only [flagAt, nodeAt, xml_apply_flag_set, Cxobj.children,
          apply_flag_set_list_eq_map, List.get?_map] at h ⊢
        cases hc : cs.get? j with
        | none => rw [hc] at h; simp at h
        | some c =>
            rw [hc] at h
            simpa [flagAt] using
              flagAt_apply_flag_set_child_mono f0 q' m c (by simpa [flagAt] using h)

/-- xml_apply_flag_set establishes flag f on every element strictly below
the node. -/
theorem flagAt_apply_flag_set_elmnt (f0 : Nat) (hf : f0 ≠ 0) (q : XPathIdx)
    (x : Cxobj) (hq : q ≠ []) (hty : typAt x q = some .elmnt) :
    flagAt (xml_apply_flag_set f0 x) q f0 = true := by
  induction q generalizing x with
  | nil => exact absurd rfl hq
  | cons j q' ih =>
      cases x with
      | mk n p ty v fl cs =>
        simp only [typAt, nodeAt, Cxobj.children] at hty
        cases hc : cs.get? j with
        | none => rw [hc] at hty; simp at hty
        | some c =>
            rw [hc] at hty
            simp only [flagAt, nodeAt, xml_apply_flag_set, Cxobj.children,
              apply_flag_set_list_eq_map, List.get?_map, hc, Option.map_some]
            cases q' with
            | nil =>
                cases c with
                | mk cn cp cty cv cfl ccs =>
                  have hcty : cty = CxType.elmnt := by
                    simpa [nodeAt, Cxobj.typ] using hty
                  simp only [xml_apply_flag_set_child, nodeAt, xml_flag, Cxobj.flags,
                    hcty, if_pos, bne_iff_ne, ne_eq]
                  simpa using lor_land_self_ne_zero cfl hf
            | cons j2 q2 =>
                have hrec := ih c (by simp) (by simpa [typAt] using hty)
                -- below the root, the child worker and xml_apply_flag_set agree
                have hsame : flagAt (xml_apply_flag_set_child f0 c) (j2 :: q2) f0 =
                    flagAt (xml_apply_flag_set f0 c) (j2 :: q2) f0 := by
                  cases c with
                  | mk cn cp cty cv cfl ccs =>
                    simp [flagAt, nodeAt, xml_apply_flag_set_child, xml_apply_flag_set,
                      Cxobj.children]
                simpa [flagAt] using hsame.trans hrec

/-- modifyAt with a type-preserving local operation preserves all node
types. -/
theorem typAt_modifyAt (g : Cxobj → Cxobj)
    (hg : ∀ x q, typAt (g x) q = typAt x q) (p q : XPathIdx) (t : Cxobj) :
    typAt (modifyAt g p t) q = typAt t q := by
  by_cases hpq : p <+: q
  · obtain ⟨r, rfl⟩ := hpq
    cases hx : nodeAt t p with
    | none => rw [modifyAt_of_invalid _ _ _ hx]
    | some x =>
        have h1 : nodeAt (modifyAt g p t) (p ++ r) = nodeAt (g x) r :=
          nodeAt_modifyAt_append g p r t x hx
        have h2 : nodeAt t (p ++ r) = nodeAt x r := by
          rw [nodeAt_append, hx]; rfl
        simp only [typAt, h1, h2]
        simpa [typAt] using hg x r
  · exact (modifyAt_outside_subtree g t hpq).2

/-- modifyAt with a flag-monotone local operation preserves set flags. -/
theorem flagAt_modifyAt_mono (g : Cxobj → Cxobj)
    (hg : ∀ x q f, flagAt x q f = true → flagAt (g x) q f = true)
    (p q : XPathIdx) (f : Nat) (t : Cxobj) (h : flagAt t q f = true) :
    flagAt (modifyAt g p t) q f = true := by
  by_cases hpq : p <+: q
  · obtain ⟨r, rfl⟩ := hpq
    cases hx : nodeAt t p with
    | none => rw [modifyAt_of_invalid _ _ _ hx]; exact h
    | some x =>
        have h1 : nodeAt (modifyAt g p t) (p ++ r) = nodeAt (g x) r :=
          nodeAt_modifyAt_append g p r t x hx
        have h2 : nodeAt t (p ++ r) = nodeAt x r := by
          rw [nodeAt_append, hx]; rfl
        rw [flagAt, h1]
        rw [flagAt, h2] at h
        have h3 := hg x r f (by rw [flagAt]; exact h)
        rw [flagAt] at h3
        exact h3
  · rw [(modifyAt_outside_subtree g t hpq).1 f]; exact h

/-- A membership of properPrefixes is exactly a strict prefix. -/
theorem mem_properPrefixes {q p : XPathIdx} :
    q ∈ properPrefixes p ↔ q <+: p ∧ q ≠ p := by
  induction p generalizing q with
  | nil =>
      simp only [properPrefixes, List.not_mem_nil, false_iff]
      rintro ⟨hq, hne⟩
      exact hne (List.prefix_nil.mp hq)
  | cons i p' ih =>
      simp only [properPrefixes, List.mem_cons, List.mem_map]
      constructor
      · rintro (rfl | ⟨q', hq', rfl⟩)
        · exact ⟨List.nil_prefix, by simp⟩
        · rcases ih.mp hq' with ⟨h1, h2⟩
          exact ⟨List.cons_prefix_cons.mpr ⟨rfl, h1⟩, by simpa using h2⟩
      · rintro ⟨h1, h2⟩
        cases q with
        | nil => exact Or.inl rfl
        | cons j q'' =>
            rcases List.cons_prefix_cons.mp h1 with ⟨rfl, h3⟩
            exact Or.inr ⟨q'', ih.mpr ⟨h3, by simpa using h2⟩, rfl⟩

/-- The ancestor flag-set walk preserves all node types. -/
theorem typAt_ancestor_flag_set (t : Cxobj) (p : XPathIdx) (f : Nat)
    (q : XPathIdx) : typAt (xml_apply_ancestor_flag_set t p f) q = typAt t q := by
  rw [xml_apply_ancestor_flag_set]
  generalize properPrefixes p = L
  induction L generalizing t with
  | nil => rfl
  | cons a L ih =>
      rw [List.foldl_cons, ih]
      exact typAt_modifyAt _ (fun x q' => typAt_flag_set f q' x) a q t

/-- The ancestor flag-set walk only adds flags. -/
theorem flagAt_ancestor_flag_set_mono (t : Cxobj) (p : XPathIdx) (f : Nat)
    (q : XPathIdx) (m : Nat) (h : flagAt t q m = true) :
    flagAt (xml_apply_ancestor_flag_set t p f) q m = true := by
  rw [xml_apply_ancestor_flag_set]
  generalize properPrefixes p = L
  induction L generalizing t with
  | nil => exact h
  | cons a L ih =>
      rw [List.foldl_cons]
      exact ih _ (flagAt_modifyAt_mono _ (fun x q' f' => flagAt_flag_set_mono f q' f' x) a q m t h)

/-- The ancestor flag-set walk establishes the flag on every strict
ancestor that is a valid position. -/
theorem flagAt_ancestor_flag_set_mem (t : Cxobj) (p : XPathIdx) {f : Nat}
    (hf : f ≠ 0) (q : XPathIdx) (hq : q ∈ properPrefixes p)
    (hval : nodeAt t q ≠ none) :
    flagAt (xml_apply_ancestor_flag_set t p f) q f = true := by
  rw [xml_apply_ancestor_flag_set]
  generalize hL : properPrefixes p = L at hq
  clear hL
  induction L generalizing t with
  | nil => simp at hq
  | cons a L ih =>
      rw [List.foldl_cons]
      rcases List.mem_cons.mp hq with rfl | hmem
      · -- established at this step, preserved by the rest of the fold
        cases hx : nodeAt t q with
        | none => exact absurd hx hval
        | some x =>
            have hstep : flagAt (modifyAt (xml_flag_set · f) q t) q f = true := by
              have h1 : nodeAt (modifyAt (xml_flag_set · f) q t) (q ++ []) =
                  nodeAt (xml_flag_set x f) [] :=
                nodeAt_modifyAt_append _ q [] t x hx
              rw [List.append_nil] at h1
              rw [flagAt, h1]
              cases x with
              | mk n np ty v fl cs =>
                simp only [nodeAt, xml_flag_set, xml_flag, Cxobj.flags, bne_iff_ne, ne_eq]
                simpa using lor_land_self_ne_zero fl hf
            -- preservation through the remaining fold steps
            clear ih hq hval hx
            generalize modifyAt (xml_flag_set · f) q t = t' at hstep ⊢
            induction L generalizing t' with
            | nil => exact hstep
            | cons b L ihL =>
                rw [List.foldl_cons]
                exact ihL _ (flagAt_modifyAt_mono _
                  (fun x q' f' => flagAt_flag_set_mono f q' f' x) b q f t' hstep)
      · -- the flag is established further down the fold; keep validity
        have hval' : nodeAt (modifyAt (xml_flag_set · f) a t) q ≠ none := by
          intro hc
          apply hval
          by_cases hpq : a <+: q
          · obtain ⟨r, rfl⟩ := hpq
            cases hx : nodeAt t a with
            | none =>
                rw [modifyAt_of_invalid _ _ _ hx] at hc
                exact hc
            | some x =>
                rw [nodeAt_modifyAt_append _ a r t x hx] at hc
                rw [nodeAt_append, hx]
                cases x with
                | mk n np ty v fl cs =>
                  simp only [Option.some_bind]
                  -- xml_flag_set keeps structure below the root
                  cases r with
                  | nil => simp [nodeAt] at hc
                  | cons r0 rr =>
                      simpa [nodeAt, xml_flag_set, Cxobj.children] using hc
          · have h2 := (modifyAt_outside_subtree (xml_flag_set · f) t hpq).2
            rw [typAt, typAt, hc] at h2
            cases hnode : nodeAt t q with
            | none => rfl
            | some y => rw [hnode] at h2; simp at h2
        exact ih _ hval' hmem

/-- A position is invalid exactly when its type lookup is. -/
theorem typAt_eq_none_iff (t : Cxobj) (q : XPathIdx) :
    typAt t q = none ↔ nodeAt t q = none := by
  rw [typAt]
  cases nodeAt t q <;> simp

/-- A prefix of a valid position is valid. -/
theorem nodeAt_of_prefix {q p : XPathIdx} {t x : Cxobj} (hq : q <+: p)
    (hx : nodeAt t p = some x) : nodeAt t q ≠ none := by
  obtain ⟨r, rfl⟩ := hq
  rw [nodeAt_append] at hx
  intro hc
  rw [hc] at hx
  simp at hx

/-- The root flags of the subtree marking operation. -/
theorem xml_flag_markNode (f0 : Nat) (hf : f0 ≠ 0) (x : Cxobj) :
    xml_flag (xml_apply_flag_set f0 (xml_flag_set x f0)) f0 = true := by
  cases x with
  | mk n p ty v fl cs =>
    simp only [xml_flag_set, xml_apply_flag_set, xml_flag, Cxobj.flags, bne_iff_ne, ne_eq]
    simpa using lor_land_self_ne_zero fl hf

/-- The DEL/ADD subtree marking preserves all node types. -/
theorem typAt_markSubtree (f0 : Nat) (t : Cxobj) (p q : XPathIdx) :
    typAt (xml_apply_ancestor_flag_set
      (modifyAt (fun x => xml_apply_flag_set f0 (xml_flag_set x f0)) p t)
      p XML_FLAG_CHANGE) q = typAt t q := by
  rw [typAt_ancestor_flag_set]
  exact typAt_modifyAt _
    (fun x q' => (typAt_apply_flag_set f0 q' _).trans (typAt_flag_set f0 q' x)) p q t

/-- The DEL/ADD subtree marking only adds flags. -/
theorem flagAt_markSubtree_mono (f0 : Nat) (t : Cxobj) (p q : XPathIdx)
    (m : Nat) (h : flagAt t q m = true) :
    flagAt (xml_apply_ancestor_flag_set
      (modifyAt (fun x => xml_apply_flag_set f0 (xml_flag_set x f0)) p t)
      p XML_FLAG_CHANGE) q m = true := by
  apply flagAt_ancestor_flag_set_mono
  exact flagAt_modifyAt_mono _
    (fun x q' f' h' => flagAt_apply_flag_set_mono f0 q' f' _
      (flagAt_flag_set_mono f0 q' f' x h')) p q m t h

/-- The DEL/ADD subtree marking sets the flag on the marked node. -/
theorem flagAt_markSubtree_self {f0 : Nat} (hf : f0 ≠ 0) {t x : Cxobj}
    {p : XPathIdx} (hx : nodeAt t p = some x) :
    flagAt (xml_apply_ancestor_flag_set
      (modifyAt (fun x => xml_apply_flag_set f0 (xml_flag_set x f0)) p t)
      p XML_FLAG_CHANGE) p f0 = true := by
  apply flagAt_ancestor_flag_set_mono
  have h1 := nodeAt_modifyAt_append
    (fun x => xml_apply_flag_set f0 (xml_flag_set x f0)) p [] t x hx
  rw [List.append_nil] at h1
  rw [flagAt, h1]
  simpa [nodeAt] using xml_flag_markNode f0 hf x

/-- The DEL/ADD subtree marking sets the flag on every element descendant of
the marked node. -/
theorem flagAt_markSubtree_desc {f0 : Nat} (hf : f0 ≠ 0) {t x : Cxobj}
    {p : XPathIdx} (hx : nodeAt t p = some x) {r : XPathIdx} (hr : r ≠ [])
    (hty : typAt t (p ++ r) = some .elmnt) :
    flagAt (xml_apply_ancestor_flag_set
      (modifyAt (fun x => xml_apply_flag_set f0 (xml_flag_set x f0)) p t)
      p XML_FLAG_CHANGE) (p ++ r) f0 = true := by
  apply flagAt_ancestor_flag_set_mono
  have h1 := nodeAt_modifyAt_append
    (fun x => xml_apply_flag_set f0 (xml_flag_set x f0)) p r t x hx
  rw [flagAt, h1]
  have hty2 : typAt x r = some .elmnt := by
    rw [typAt, nodeAt_append, hx] at hty
    simpa [typAt] using hty
  have hty3 : typAt (xml_flag_set x f0) r = some .elmnt :=
    (typAt_flag_set f0 r x).trans hty2
  have := flagAt_apply_flag_set_elmnt f0 hf r (xml_flag_set x f0) hr hty3
  rw [flagAt] at this
  exact this

/-- The DEL/ADD subtree marking sets CHANGE on every strict ancestor of the
marked node. -/
theorem flagAt_markSubtree_anc (f0 : Nat) {t x : Cxobj} {p q : XPathIdx}
    (hx : nodeAt t p = some x) (hq : q <+: p) (hne : q ≠ p) :
    flagAt (xml_apply_ancestor_flag_set
      (modifyAt (fun x => xml_apply_flag_set f0 (xml_flag_set x f0)) p t)
      p XML_FLAG_CHANGE) q XML_FLAG_CHANGE = true := by
  apply flagAt_ancestor_flag_set_mem _ p (by decide)
  · exact mem_properPrefixes.mpr ⟨hq, hne⟩
  · intro hc
    have h2 := typAt_modifyAt
      (fun x => xml_apply_flag_set f0 (xml_flag_set x f0))
      (fun x q' => (typAt_apply_flag_set f0 q' _).trans (typAt_flag_set f0 q' x)) p q t
    rw [typAt, hc] at h2
    have h3 : typAt t q = none := h2.symm
    exact nodeAt_of_prefix hq hx ((typAt_eq_none_iff t q).mp h3)

/-- markChangeAt preserves all node types. -/
theorem typAt_markChangeAt (t : Cxobj) (p q : XPathIdx) :
    typAt (markChangeAt t p) q = typAt t q := by
  rw [markChangeAt, typAt_ancestor_flag_set]
  exact typAt_modifyAt _ (fun x q' => typAt_flag_set XML_FLAG_CHANGE q' x) p q t

/-- markChangeAt only adds flags. -/
theorem flagAt_markChangeAt_mono (t : Cxobj) (p q : XPathIdx) (m : Nat)
    (h : flagAt t q m = true) : flagAt (markChangeAt t p) q m = true := by
  rw [markChangeAt]
  apply flagAt_ancestor_flag_set_mono
  exact flagAt_modifyAt_mono _
    (fun x q' f' h' => flagAt_flag_set_mono XML_FLAG_CHANGE q' f' x h') p q m t h

/-- markChangeAt sets CHANGE on the marked node. -/
theorem flagAt_markChangeAt_self {t x : Cxobj} {p : XPathIdx}
    (hx : nodeAt t p = some x) :
    flagAt (markChangeAt t p) p XML_FLAG_CHANGE = true := by
  rw [markChangeAt]
  apply flagAt_ancestor_flag_set_mono
  have h1 := nodeAt_modifyAt_append (fun x => xml_flag_set x XML_FLAG_CHANGE) p [] t x hx
  rw [List.append_nil] at h1
  rw [flagAt, h1]
  cases x with
  | mk n np ty v fl cs =>
    simp only [nodeAt, xml_flag_set, xml_flag, Cxobj.flags, bne_iff_ne, ne_eq]
    simpa using lor_land_self_ne_zero fl (by decide : XML_FLAG_CHANGE ≠ 0)

/-- markChangeAt sets CHANGE on every strict ancestor of the marked node. -/
theorem flagAt_markChangeAt_anc {t x : Cxobj} {p q : XPathIdx}
    (hx : nodeAt t p = some x) (hq : q <+: p) (hne : q ≠ p) :
    flagAt (markChangeAt t p) q XML_FLAG_CHANGE = true := by
  rw [markChangeAt]
  apply flagAt_ancestor_flag_set_mem _ p (by decide)
  · exact mem_properPrefixes.mpr ⟨hq, hne⟩
  · intro hc
    have h2 := typAt_modifyAt (fun x => xml_flag_set x XML_FLAG_CHANGE)
      (fun x q' => typAt_flag_set XML_FLAG_CHANGE q' x) p q t
    rw [typAt, hc] at h2
    exact nodeAt_of_prefix hq hx ((typAt_eq_none_iff t q).mp h2.symm)

/-- typAt-preservation lifted through a fold of markings. -/
theorem typAt_foldl_mark (op : Cxobj → XPathIdx → Cxobj)
    (hop : ∀ t p q, typAt (op t p) q = typAt t q) (L : List XPathIdx)
    (t : Cxobj) (q : XPathIdx) : typAt (L.foldl op t) q = typAt t q := by
  induction L generalizing t with
  | nil => rfl
  | cons a L ih => rw [List.foldl_cons, ih, hop]

/-- flag-monotonicity lifted through a fold of markings. -/
theorem flagAt_foldl_mark_mono (op : Cxobj → XPathIdx → Cxobj)
    (hop : ∀ t p q m, flagAt t q m = true → flagAt (op t p) q m = true)
    (L : List XPathIdx) (t : Cxobj) (q : XPathIdx) (m : Nat)
    (h : flagAt t q m = true) : flagAt (L.foldl op t) q m = true := by
  induction L generalizing t with
  | nil => exact h
  | cons a L ih => exact ih _ (hop t a q m h)

/-- markDelAt preserves node types. -/
theorem typAt_markDelAt (t : Cxobj) (p q : XPathIdx) :
    typAt (markDelAt t p) q = typAt t q :=
  typAt_markSubtree XML_FLAG_DEL t p q

/-- markAddAt preserves node types. -/
theorem typAt_markAddAt (t : Cxobj) (p q : XPathIdx) :
    typAt (markAddAt t p) q = typAt t q :=
  typAt_markSubtree XML_FLAG_ADD t p q

/-- Properties of the finished source-side marking at a deleted position. -/
theorem mark_src_del_props (src : Cxobj) (dvec scvec : List XPathIdx)
    (p : XPathIdx) (hp : p ∈ dvec) (hval : (nodeAt src p).isSome = true) :
    flagAt (mark_diff_src src dvec scvec) p XML_FLAG_DEL = true ∧
    (∀ r, r ≠ [] → typAt src (p ++ r) = some .elmnt →
      flagAt (mark_diff_src src dvec scvec) (p ++ r) XML_FLAG_DEL = true) ∧
    (∀ q, q <+: p → q ≠ p →
      flagAt (mark_diff_src src dvec scvec) q XML_FLAG_CHANGE = true) := by
  obtain ⟨l1, l2, rfl⟩ := List.append_of_mem hp
  have hfold : mark_diff_src src (l1 ++ p :: l2) scvec =
      scvec.foldl markChangeAt (l2.foldl markDelAt (markDelAt (l1.foldl markDelAt src) p)) := by
    simp [mark_diff_src, List.foldl_append]
  have htyp1 : typAt (l1.foldl markDelAt src) p = typAt src p :=
    typAt_foldl_mark markDelAt typAt_markDelAt l1 src p
  have hvx : nodeAt (l1.foldl markDelAt src) p ≠ none := by
    intro hc
    have h2 : typAt src p = none := by
      rw [← htyp1, typAt_eq_none_iff]; exact hc
    rw [typAt_eq_none_iff] at h2
    rw [h2] at hval
    simp at hval
  cases hx : nodeAt (l1.foldl markDelAt src) p with
  | none => exact absurd hx hvx
  | some x =>
      have hpres : ∀ q m, flagAt (markDelAt (l1.foldl markDelAt src) p) q m = true →
          flagAt (mark_diff_src src (l1 ++ p :: l2) scvec) q m = true := by
        intro q m h
        rw [hfold]
        exact flagAt_foldl_mark_mono markChangeAt flagAt_markChangeAt_mono scvec _ q m
          (flagAt_foldl_mark_mono markDelAt
            (fun t p' q' m' h' => flagAt_markSubtree_mono XML_FLAG_DEL t p' q' m' h')
            l2 _ q m h)
      refine ⟨?_, ?_, ?_⟩
      · exact hpres p XML_FLAG_DEL
          (flagAt_markSubtree_self (by decide : XML_FLAG_DEL ≠ 0) hx)
      · intro r hr hty
        have hty1 : typAt (l1.foldl markDelAt src) (p ++ r) = some .elmnt := by
          rw [typAt_foldl_mark markDelAt typAt_markDelAt l1 src (p ++ r)]
          exact hty
        exact hpres (p ++ r) XML_FLAG_DEL
          (flagAt_markSubtree_desc (by decide : XML_FLAG_DEL ≠ 0) hx hr hty1)
      · intro q hq hne
        exact hpres q XML_FLAG_CHANGE (flagAt_markSubtree_anc XML_FLAG_DEL hx hq hne)

/-- Properties of the finished target-side marking at an added position. -/
theorem mark_tgt_add_props (tgt : Cxobj) (avec tcvec : List XPathIdx)
    (p : XPathIdx) (hp : p ∈ avec) (hval : (nodeAt tgt p).isSome = true) :
    flagAt (mark_diff_tgt tgt avec tcvec) p XML_FLAG_ADD = true ∧
    (∀ r, r ≠ [] → typAt tgt (p ++ r) = some .elmnt →
      flagAt (mark_diff_tgt tgt avec tcvec) (p ++ r) XML_FLAG_ADD = true) ∧
    (∀ q, q <+: p → q ≠ p →
      flagAt (mark_diff_tgt tgt avec tcvec) q XML_FLAG_CHANGE = true) := by
  obtain ⟨l1, l2, rfl⟩ := List.append_of_mem hp
  have hfold : mark_diff_tgt tgt (l1 ++ p :: l2) tcvec =
      tcvec.foldl markChangeAt (l2.foldl markAddAt (markAddAt (l1.foldl markAddAt tgt) p)) := by
    simp [mark_diff_tgt, List.foldl_append]
  have htyp1 : typAt (l1.foldl markAddAt tgt) p = typAt tgt p :=
    typAt_foldl_mark markAddAt typAt_markAddAt l1 tgt p
  have hvx : nodeAt (l1.foldl markAddAt tgt) p ≠ none := by
    intro hc
    have h2 : typAt tgt p = none := by
      rw [← htyp1, typAt_eq_none_iff]; exact hc
    rw [typAt_eq_none_iff] at h2
    rw [h2] at hval
    simp at hval
  cases hx : nodeAt (l1.foldl markAddAt tgt) p with
  | none => exact absurd hx hvx
  | some x =>
      have hpres : ∀ q m, flagAt (markAddAt (l1.foldl markAddAt tgt) p) q m = true →
          flagAt (mark_diff_tgt tgt (l1 ++ p :: l2) tcvec) q m = true := by
        intro q m h
        rw [hfold]
        exact flagAt_foldl_mark_mono markChangeAt flagAt_markChangeAt_mono tcvec _ q m
          (flagAt_foldl_mark_mono markAddAt
            (fun t p' q' m' h' => flagAt_markSubtree_mono XML_FLAG_ADD t p' q' m' h')
            l2 _ q m h)
      refine ⟨?_, ?_, ?_⟩
      · exact hpres p XML_FLAG_ADD
          (flagAt_markSubtree_self (by decide : XML_FLAG_ADD ≠ 0) hx)
      · intro r hr hty
        have hty1 : typAt (l1.foldl markAddAt tgt) (p ++ r) = some .elmnt := by
          rw [typAt_foldl_mark markAddAt typAt_markAddAt l1 tgt (p ++ r)]
          exact hty
        exact hpres (p ++ r) XML_FLAG_ADD
          (flagAt_markSubtree_desc (by decide : XML_FLAG_ADD ≠ 0) hx hr hty1)
      · intro q hq hne
        exact hpres q XML_FLAG_CHANGE (flagAt_markSubtree_anc XML_FLAG_ADD hx hq hne)

/-- Properties of the finished source-side marking at a changed position. -/
theorem mark_src_change_props (src : Cxobj) (dvec scvec : List XPathIdx)
    (p : XPathIdx) (hp : p ∈ scvec) (hval : (nodeAt src p).isSome = true) :
    flagAt (mark_diff_src src dvec scvec) p XML_FLAG_CHANGE = true ∧
    (∀ q, q <+: p → q ≠ p →
      flagAt (mark_diff_src src dvec scvec) q XML_FLAG_CHANGE = true) := by
  obtain ⟨l1, l2, rfl⟩ := List.append_of_mem hp
  have hfold : mark_diff_src src dvec (l1 ++ p :: l2) =
      l2.foldl markChangeAt
        (markChangeAt (l1.foldl markChangeAt (dvec.foldl markDelAt src)) p) := by
    simp [mark_diff_src, List.foldl_append]
  have htyp1 : typAt (l1.foldl markChangeAt (dvec.foldl markDelAt src)) p = typAt src p := by
    rw [typAt_foldl_mark markChangeAt typAt_markChangeAt l1 _ p]
    exact typAt_foldl_mark markDelAt typAt_markDelAt dvec src p
  have hvx : nodeAt (l1.foldl markChangeAt (dvec.foldl markDelAt src)) p ≠ none := by
    intro hc
    have h2 : typAt src p = none := by
      rw [← htyp1, typAt_eq_none_iff]; exact hc
    rw [typAt_eq_none_iff] at h2
    rw [h2] at hval
    simp at hval
  cases hx : nodeAt (l1.foldl markChangeAt (dvec.foldl markDelAt src)) p with
  | none => exact absurd hx hvx
  | some x =>
      have hpres : ∀ q m,
          flagAt (markChangeAt (l1.foldl markChangeAt (dvec.foldl markDelAt src)) p) q m = true →
          flagAt (mark_diff_src src dvec (l1 ++ p :: l2)) q m = true := by
        intro q m h
        rw [hfold]
        exact flagAt_foldl_mark_mono markChangeAt flagAt_markChangeAt_mono l2 _ q m h
      exact ⟨hpres p XML_FLAG_CHANGE (flagAt_markChangeAt_self hx),
        fun q hq hne => hpres q XML_FLAG_CHANGE (flagAt_markChangeAt_anc hx hq hne)⟩

/-- Properties of the finished target-side marking at a changed position. -/
theorem mark_tgt_change_props (tgt : Cxobj) (avec tcvec : List XPathIdx)
    (p : XPathIdx) (hp : p ∈ tcvec) (hval : (nodeAt tgt p).isSome = true) :
    flagAt (mark_diff_tgt tgt avec tcvec) p XML_FLAG_CHANGE = true ∧
    (∀ q, q <+: p → q ≠ p →
      flagAt (mark_diff_tgt tgt avec tcvec) q XML_FLAG_CHANGE = true) := by
  obtain ⟨l1, l2, rfl⟩ := List.append_of_mem hp
  have hfold : mark_diff_tgt tgt avec (l1 ++ p :: l2) =
      l2.foldl markChangeAt
        (markChangeAt (l1.foldl markChangeAt (avec.foldl markAddAt tgt)) p) := by
    simp [mark_diff_tgt, List.foldl_append]
  have htyp1 : typAt (l1.foldl markChangeAt (avec.foldl markAddAt tgt)) p = typAt tgt p := by
    rw [typAt_foldl_mark markChangeAt typAt_markChangeAt l1 _ p]
    exact typAt_foldl_mark markAddAt typAt_markAddAt avec tgt p
  have hvx : nodeAt (l1.foldl markChangeAt (avec.foldl markAddAt tgt)) p ≠ none := by
    intro hc
    have h2 : typAt tgt p = none := by
      rw [← htyp1, typAt_eq_none_iff]; exact hc
    rw [typAt_eq_none_iff] at h2
    rw [h2] at hval
    simp at hval
  cases hx : nodeAt (l1.foldl markChangeAt (avec.foldl markAddAt tgt)) p with
  | none => exact absurd hx hvx
  | some x =>
      have hpres : ∀ q m,
          flagAt (markChangeAt (l1.foldl markChangeAt (avec.foldl markAddAt tgt)) p) q m = true →
          flagAt (mark_diff_tgt tgt avec (l1 ++ p :: l2)) q m = true := by
        intro q m h
        rw [hfold]
        exact flagAt_foldl_mark_mono markChangeAt flagAt_markChangeAt_mono l2 _ q m h
      exact ⟨hpres p XML_FLAG_CHANGE (flagAt_markChangeAt_self hx),
        fun q hq hne => hpres q XML_FLAG_CHANGE (flagAt_markChangeAt_anc hx hq hne)⟩

/-- C4: in validate_common, after the diff of source and target is computed,
the flag-marking pass leaves every node of the deleted vector and all its
element descendants carrying XML_FLAG_DEL, every node of the added vector
and all its element descendants carrying XML_FLAG_ADD, both endpoints of
every changed pair carrying XML_FLAG_CHANGE, and every strict ancestor of
every node of the three vectors carrying XML_FLAG_CHANGE. -/
theorem c4_validate_common_marking
    (src tgt : Cxobj) (dvec avec scvec tcvec : List XPathIdx)
    (hd : ∀ p ∈ dvec, (nodeAt src p).isSome = true)
    (hs : ∀ p ∈ scvec, (nodeAt src p).isSome = true)
    (ha : ∀ p ∈ avec, (nodeAt tgt p).isSome = true)
    (htc : ∀ p ∈ tcvec, (nodeAt tgt p).isSome = true) :
    (∀ p ∈ dvec,
        flagAt (mark_diff_src src dvec scvec) p XML_FLAG_DEL = true ∧
        (∀ r, r ≠ [] → typAt src (p ++ r) = some .elmnt →
          flagAt (mark_diff_src src dvec scvec) (p ++ r) XML_FLAG_DEL = true) ∧
        (∀ q, q <+: p → q ≠ p →
          flagAt (mark_diff_src src dvec scvec) q XML_FLAG_CHANGE = true)) ∧
    (∀ p ∈ avec,
        flagAt (mark_diff_tgt tgt avec tcvec) p XML_FLAG_ADD = true ∧
        (∀ r, r ≠ [] → typAt tgt (p ++ r) = some .elmnt →
          flagAt (mark_diff_tgt tgt avec tcvec) (p ++ r) XML_FLAG_ADD = true) ∧
        (∀ q, q <+: p → q ≠ p →
          flagAt (mark_diff_tgt tgt avec tcvec) q XML_FLAG_CHANGE = true)) ∧
    (∀ p ∈ scvec,
        flagAt (mark_diff_src src dvec scvec) p XML_FLAG_CHANGE = true ∧
        (∀ q, q <+: p → q ≠ p →
          flagAt (mark_diff_src src dvec scvec) q XML_FLAG_CHANGE = true)) ∧
    (∀ p ∈ tcvec,
        flagAt (mark_diff_tgt tgt avec tcvec) p XML_FLAG_CHANGE = true ∧
        (∀ q, q <+: p → q ≠ p →
          flagAt (mark_diff_tgt tgt avec tcvec) q XML_FLAG_CHANGE = true)) :=
  ⟨fun p hp => mark_src_del_props src dvec scvec p hp (hd p hp),
   fun p hp => mark_tgt_add_props tgt avec tcvec p hp (ha p hp),
   fun p hp => mark_src_change_props src dvec scvec p hp (hs p hp),
   fun p hp => mark_tgt_change_props tgt avec tcvec p hp (htc p hp)⟩

/-- A small source tree for the marking witness. -/
def c4src : Cxobj :=
  .mk "config" none .elmnt none 0
    [.mk "a" none .elmnt none 0 [.mk "b" none .elmnt none 0 []]]

/-- A small target tree for the marking witness. -/
def c4tgt : Cxobj :=
  .mk "config" none .elmnt none 0
    [.mk "c" none .elmnt none 0 [], .mk "d" none .elmnt none 0 []]

/-- Witness for C4 on concrete trees: the deleted subtree is DEL-marked
recursively, the root ancestor gets CHANGE, the added child gets ADD and the
changed endpoint gets CHANGE. -/
theorem c4_witness :
    (∀ p ∈ ([[0]] : List XPathIdx), (nodeAt c4src p).isSome = true) ∧
    flagAt (mark_diff_src c4src [[0]] []) [0] XML_FLAG_DEL = true ∧
    flagAt (mark_diff_src c4src [[0]] []) ([0] ++ [0]) XML_FLAG_DEL = true ∧
    flagAt (mark_diff_src c4src [[0]] []) [] XML_FLAG_CHANGE = true ∧
    flagAt (mark_diff_tgt c4tgt [[0]] [[1]]) [0] XML_FLAG_ADD = true ∧
    flagAt (mark_diff_tgt c4tgt [[0]] [[1]]) [1] XML_FLAG_CHANGE = true := by
  have h := c4_validate_common_marking c4src c4tgt [[0]] [[0]] [] [[1]]
    (by decide) (by decide) (by decide) (by decide)
  refine ⟨by decide, ?_, ?_, ?_, ?_, ?_⟩
  · exact (h.1 [0] (by simp)).1
  · exact (h.1 [0] (by simp)).2.1 [0] (by simp) (by decide)
  · exact (h.1 [0] (by simp)).2.2 [] (by simp) (by simp)
  · exact (h.2.1 [0] (by simp)).1
  · exact (h.2.2.2 [1] (by simp)).1

/-- The three-valued result convention of the commit engine:
-1 error, 0 validation failed, 1 OK. -/
inductive Res where
  | err
  | invalid
  | ok
deriving DecidableEq, Repr

/-- Observable events of a transaction run: datastore accesses and plugin
callback invocations, in invocation order. -/
inductive Ev where
  | newTxn
  | load (db : String)
  | diffE
  | beginCb
  | genericValidateCb
  | validateCb
  | completeCb
  | commitCb
  | commitDoneCb
  | copyDb (src dst : String)
  | putDb (db : String)
  | endCb
  | abortCb
  | datastoreUpgrade
  | moduleUpgrade
  | confirmedCommit
deriving DecidableEq, Repr

/-- The datastore state: per-database content (none if the database does not
exist) and per-database dirty bit. -/
structure DBState where
  content : String → Option String
  dirty : String → Bool

/-- xmldb_copy(h, src, dst). -/
def xmldb_copy (st : DBState) (src dst : String) : DBState :=
  { st with content := fun n => if n = dst then st.content src else st.content n }

/-- xmldb_modified_set(h, db, b). -/
def xmldb_modified_set (st : DBState) (db : String) (b : Bool) : DBState :=
  { st with dirty := fun n => if n = db then b else st.dirty n }

/-- xmldb_db_reset(h, db): truncate the database to an empty config. -/
def xmldb_db_reset (st : DBState) (db : String) : DBState :=
  { st with content := fun n => if n = db then some "" else st.content n }

/-- xmldb_delete(h, db). -/
def xmldb_delete (st : DBState) (db : String) : DBState :=
  { st with content := fun n => if n = db then none else st.content n }

/-- xmldb_create(h, db). -/
def xmldb_create (st : DBState) (db : String) : DBState :=
  { st with content := fun n => if n = db then some "" else st.content n }

/-- Environment of one candidate_commit / candidate_validate run: the
outcome of each external call the control flow branches on. -/
structure CandEnv where
  yspecOk : Bool
  getTarget : Res
  getSrc : Res
  beginOk : Bool
  genericValidateRes : Res
  validateOk : Bool
  completeOk : Bool
  ccFeature : Bool
  ccOk : Bool
  commitOk : Bool
  commitDoneOk : Bool
  clearTargetOk : Bool
  clearSrcOk : Bool

/-- validate_common(h, db, td, xret): load target db and running, compute
and mark the diff, then run plugin begin, generic validation, plugin
validate and plugin complete.  Returns the three-valued result and the
event trace. -/
def validate_common (e : CandEnv) (db : String) : Res × List Ev :=
  if ¬ e.yspecOk then (.err, [])
  else
    match e.getTarget with
    | .err => (.err, [.load db])
    | .invalid => (.invalid, [.load db])
    | .ok =>
      match e.getSrc with
      | .err => (.err, [.load db, .load "running"])
      | .invalid => (.invalid, [.load db, .load "running"])
      | .ok =>
        if ¬ e.beginOk then (.err, [.load db, .load "running", .diffE, .beginCb])
        else
          match e.genericValidateRes with
          | .err => (.err, [.load db, .load "running", .diffE, .beginCb, .genericValidateCb])
          | .invalid =>
              (.invalid, [.load db, .load "running", .diffE, .beginCb, .genericValidateCb])
          | .ok =>
            if ¬ e.validateOk then
              (.err, [.load db, .load "running", .diffE, .beginCb, .genericValidateCb,
                .validateCb])
            else if ¬ e.completeOk then
              (.err, [.load db, .load "running", .diffE, .beginCb, .genericValidateCb,
                .validateCb, .completeCb])
            else
              (.ok, [.load db, .load "running", .diffE, .beginCb, .genericValidateCb,
                .validateCb, .completeCb])

/-- Modelled from the spec: handle_confirmed_commit (confirmed_commit.c is
not part of the source under review).  Arming a confirmed commit snapshots
running into the rollback store, confirming or cancelling deletes or keeps
it; none of the transitions writes the running datastore itself. -/
def handle_confirmed_commit_state (st : DBState) : DBState :=
  { st with content := fun n => if n = "rollback" then st.content "running" else st.content n }

/-- The confirmed-commit phase-2 block of candidate_commit: executed when
the confirmed-commit feature is on, the state is not ROLLBACK and the
request xe is non-NULL. -/
def cc_phase2 (e : CandEnv) (xe : Bool) (st : DBState) : Bool × DBState × List Ev :=
  if e.ccFeature && xe then
    (e.ccOk, handle_confirmed_commit_state st, [.confirmedCommit])
  else
    (true, st, [])

/-- candidate_commit(h, xe, db, myid, vlev, cbret): run validate_common,
the confirmed-commit phase-2 block, then plugin commit, plugin commit-done,
the copy of db onto running, and plugin end; on any failure run plugin
abort.  Returns the result, the final datastore state and the event
trace. -/
def candidate_commit (e : CandEnv) (xe : Bool) (db : String) (st : DBState) :
    Res × DBState × List Ev :=
  let vc := validate_common e db
  let tr := Ev.newTxn :: vc.2
  match vc.1 with
  | .err => (.err, st, tr ++ [.abortCb])
  | .invalid =>
      if ¬ e.yspecOk then (.err, st, tr ++ [.abortCb])
      else
        let cc := cc_phase2 e xe st
        if ¬ cc.1 then (.err, cc.2.1, tr ++ cc.2.2 ++ [.abortCb])
        else (.invalid, cc.2.1, tr ++ cc.2.2 ++ [.abortCb])
  | .ok =>
      if ¬ e.yspecOk then (.err, st, tr ++ [.abortCb])
      else
        let cc := cc_phase2 e xe st
        if ¬ cc.1 then (.err, cc.2.1, tr ++ cc.2.2 ++ [.abortCb])
        else if ¬ e.commitOk then
          (.err, cc.2.1, tr ++ cc.2.2 ++ [.commitCb, .abortCb])
        else if ¬ e.commitDoneOk then
          (.err, cc.2.1, tr ++ cc.2.2 ++ [.commitCb, .commitDoneCb, .abortCb])
        else if ¬ e.clearTargetOk ∨ ¬ e.clearSrcOk then
          (.err, cc.2.1, tr ++ cc.2.2 ++ [.commitCb, .commitDoneCb, .abortCb])
        else
          let st2 := xmldb_modified_set (xmldb_copy cc.2.1 db "running") db false
          (.ok, st2,
            tr ++ cc.2.2 ++ [.commitCb, .commitDoneCb, .copyDb db "running", .endCb])

/-- validate_common succeeds exactly when every step of it succeeds. -/
theorem vc_ok_iff (e : CandEnv) (db : String) :
    (validate_common e db).1 = .ok ↔
      (e.yspecOk = true ∧ e.getTarget = .ok ∧ e.getSrc = .ok ∧ e.beginOk = true ∧
        e.genericValidateRes = .ok ∧ e.validateOk = true ∧ e.completeOk = true) := by
  rcases e with ⟨ys, gt, gs, bg, gv, vd, cp, _, _, _, _, _, _⟩
  cases ys <;> cases gt <;> cases gs <;> cases bg <;> cases gv <;> cases vd <;> cases cp <;>
    simp [validate_common]

/-- The trace of a successful validate_common run. -/
theorem vc_ok_trace (e : CandEnv) (db : String)
    (h : (validate_common e db).1 = .ok) :
    (validate_common e db).2 =
      [.load db, .load "running", .diffE, .beginCb, .genericValidateCb,
        .validateCb, .completeCb] := by
  obtain ⟨h1, h2, h3, h4, h5, h6, h7⟩ := (vc_ok_iff e db).mp h
  simp [validate_common, h1, h2, h3, h4, h5, h6, h7]

/-- Every event of a validate_common trace is a load, diff, begin, generic
validate, plugin validate or plugin complete event. -/
theorem vc_trace_subset (e : CandEnv) (db : String) :
    ∀ v ∈ (validate_common e db).2,
      v ∈ ([.load db, .load "running", .diffE, .beginCb, .genericValidateCb,
        .validateCb, .completeCb] : List Ev) := by
  rcases e with ⟨ys, gt, gs, bg, gv, vd, cp, _, _, _, _, _, _⟩
  cases ys <;> cases gt <;> cases gs <;> cases bg <;> cases gv <;> cases vd <;> cases cp <;>
    (intro v hv <;> simp [validate_common] at hv ⊢ <;> tauto)

/-- handle_confirmed_commit never writes the running datastore. -/
theorem hcc_running (st : DBState) :
    (handle_confirmed_commit_state st).content "running" = st.content "running" := by
  simp [handle_confirmed_commit_state]

/-- The confirmed-commit phase-2 block never writes the running datastore. -/
theorem cc_phase2_running (e : CandEnv) (xe : Bool) (st : DBState) :
    (cc_phase2 e xe st).2.1.content "running" = st.content "running" := by
  by_cases h : e.ccFeature && xe <;> simp [cc_phase2, h, hcc_running]

/-- The confirmed-commit phase-2 block performs no datastore copy. -/
theorem cc_phase2_trace_nocopy (e : CandEnv) (xe : Bool) (st : DBState)
    (s d : String) : Ev.copyDb s d ∉ (cc_phase2 e xe st).2.2 := by
  by_cases h : e.ccFeature && xe <;> simp [cc_phase2, h]

/-- Every failed candidate_commit leaves running untouched, performs no
datastore copy and invokes the plugin abort callbacks. -/
theorem candidate_commit_fail_props (e : CandEnv) (xe : Bool) (db : String)
    (st : DBState) (h : (candidate_commit e xe db st).1 ≠ .ok) :
    (candidate_commit e xe db st).2.1.content "running" = st.content "running" ∧
    (∀ s d, Ev.copyDb s d ∉ (candidate_commit e xe db st).2.2) ∧
    Ev.abortCb ∈ (candidate_commit e xe db st).2.2 := by
  have hsub := vc_trace_subset e db
  have hnocopy : ∀ s d, Ev.copyDb s d ∉ (validate_common e db).2 := by
    intro s d hmem
    have := hsub _ hmem
    simp at this
  cases hvc : (validate_common e db).1 with
  | err =>
      refine ⟨by simp [candidate_commit, hvc], fun s d hmem => ?_,
        by simp [candidate_commit, hvc]⟩
      simp [candidate_commit, hvc] at hmem
      exact hnocopy s d hmem
  | invalid =>
      by_cases hy : e.yspecOk
      · by_cases hcf : e.ccFeature && xe
        · by_cases hcc : e.ccOk
          · refine ⟨by simp [candidate_commit, hvc, hy, cc_phase2, hcf, hcc, hcc_running],
              fun s d hmem => ?_,
              by simp [candidate_commit, hvc, hy, cc_phase2, hcf, hcc]⟩
            simp [candidate_commit, hvc, hy, cc_phase2, hcf, hcc] at hmem
            exact hnocopy s d hmem
          · refine ⟨by simp [candidate_commit, hvc, hy, cc_phase2, hcf, hcc, hcc_running],
              fun s d hmem => ?_,
              by simp [candidate_commit, hvc, hy, cc_phase2, hcf, hcc]⟩
            simp [candidate_commit, hvc, hy, cc_phase2, hcf, hcc] at hmem
            exact hnocopy s d hmem
        · refine ⟨by simp [candidate_commit, hvc, hy, cc_phase2, hcf],
            fun s d hmem => ?_,
            by simp [candidate_commit, hvc, hy, cc_phase2, hcf]⟩
          simp [candidate_commit, hvc, hy, cc_phase2, hcf] at hmem
          exact hnocopy s d hmem
      · refine ⟨by simp [candidate_commit, hvc, hy], fun s d hmem => ?_,
          by simp [candidate_commit, hvc, hy]⟩
        simp [candidate_commit, hvc, hy] at hmem
        exact hnocopy s d hmem
  | ok =>
      by_cases hy : e.yspecOk
      · by_cases hcc1 : (cc_phase2 e xe st).1
        · by_cases hcm : e.commitOk
          · by_cases hcd : e.commitDoneOk
            · by_cases hct : e.clearTargetOk
              · by_cases hcs : e.clearSrcOk
                · exact absurd (by
                    simp [candidate_commit, hvc, hy, hcc1, hcm, hcd, hct, hcs]) h
                · refine ⟨by simp [candidate_commit, hvc, hy, hcc1, hcm, hcd, hct, hcs,
                      cc_phase2_running],
                    fun s d hmem => ?_,
                    by simp [candidate_commit, hvc, hy, hcc1, hcm, hcd, hct, hcs]⟩
                  simp [candidate_commit, hvc, hy, hcc1, hcm, hcd, hct, hcs,
                    cc_phase2_trace_nocopy] at hmem
                  exact hnocopy s d hmem
              · refine ⟨by simp [candidate_commit, hvc, hy, hcc1, hcm, hcd, hct,
                    cc_phase2_running],
                  fun s d hmem => ?_,
                  by simp [candidate_commit, hvc, hy, hcc1, hcm, hcd, hct]⟩
                simp [candidate_commit, hvc, hy, hcc1, hcm, hcd, hct,
                  cc_phase2_trace_nocopy] at hmem
                exact hnocopy s d hmem
            · refine ⟨by simp [candidate_commit, hvc, hy, hcc1, hcm, hcd, cc_phase2_running],
                fun s d hmem => ?_,
                by simp [candidate_commit, hvc, hy, hcc1, hcm, hcd]⟩
              simp [candidate_commit, hvc, hy, hcc1, hcm, hcd,
                cc_phase2_trace_nocopy] at hmem
              exact hnocopy s d hmem
          · refine ⟨by simp [candidate_commit, hvc, hy, hcc1, hcm, cc_phase2_running],
              fun s d hmem => ?_,
              by simp [candidate_commit, hvc, hy, hcc1, hcm]⟩
            simp [candidate_commit, hvc, hy, hcc1, hcm, cc_phase2_trace_nocopy] at hmem
            exact hnocopy s d hmem
        · refine ⟨by simp [candidate_commit, hvc, hy, hcc1, cc_phase2_running],
            fun s d hmem => ?_,
            by simp [candidate_commit, hvc, hy, hcc1]⟩
          simp [candidate_commit, hvc, hy, hcc1, cc_phase2_trace_nocopy] at hmem
          exact hnocopy s d hmem
      · refine ⟨by simp [candidate_commit, hvc, hy], fun s d hmem => ?_,
          by simp [candidate_commit, hvc, hy]⟩
        simp [candidate_commit, hvc, hy] at hmem
        exact hnocopy s d hmem

/-- The confirmed-commit phase-2 block emits at most its own event. -/
theorem cc_phase2_no_commitDone (e : CandEnv) (xe : Bool) (st : DBState) :
    Ev.commitDoneCb ∉ (cc_phase2 e xe st).2.2 := by
  by_cases h : e.ccFeature && xe <;> simp [cc_phase2, h]

/-- A fully successful candidate_commit run: its result, final state and
complete event trace. -/
theorem candidate_commit_ok_run (e : CandEnv) (xe : Bool) (db : String)
    (st : DBState)
    (h1 : e.yspecOk = true) (h2 : e.getTarget = .ok) (h3 : e.getSrc = .ok)
    (h4 : e.beginOk = true) (h5 : e.genericValidateRes = .ok)
    (h6 : e.validateOk = true) (h7 : e.completeOk = true)
    (h8 : (cc_phase2 e xe st).1 = true) (h9 : e.commitOk = true)
    (h10 : e.commitDoneOk = true) (h11 : e.clearTargetOk = true)
    (h12 : e.clearSrcOk = true) :
    candidate_commit e xe db st =
      (.ok, xmldb_modified_set (xmldb_copy (cc_phase2 e xe st).2.1 db "running") db false,
        Ev.newTxn :: ([.load db, .load "running", .diffE, .beginCb, .genericValidateCb,
          .validateCb, .completeCb] ++ (cc_phase2 e xe st).2.2 ++
          [.commitCb, .commitDoneCb, .copyDb db "running", .endCb])) := by
  have hvc : (validate_common e db).1 = .ok :=
    (vc_ok_iff e db).mpr ⟨h1, h2, h3, h4, h5, h6, h7⟩
  have htr := vc_ok_trace e db hvc
  simp [candidate_commit, hvc, htr, h1, h8, h9, h10, h11, h12]

/-- Inversion: a successful candidate_commit implies every step of it
succeeded. -/
theorem candidate_commit_ok_inv (e : CandEnv) (xe : Bool) (db : String)
    (st : DBState) (hok : (candidate_commit e xe db st).1 = .ok) :
    (validate_common e db).1 = .ok ∧ e.yspecOk = true ∧
    (cc_phase2 e xe st).1 = true ∧ e.commitOk = true ∧ e.commitDoneOk = true ∧
    e.clearTargetOk = true ∧ e.clearSrcOk = true := by
  cases hvc : (validate_common e db).1 with
  | err => simp [candidate_commit, hvc] at hok
  | invalid =>
      by_cases hy : e.yspecOk
      · by_cases hcc1 : (cc_phase2 e xe st).1
        · simp [candidate_commit, hvc, hy, hcc1] at hok
        · simp [candidate_commit, hvc, hy, hcc1] at hok
      · simp [candidate_commit, hvc, hy] at hok
  | ok =>
      by_cases hy : e.yspecOk
      · by_cases hcc1 : (cc_phase2 e xe st).1
        · by_cases hcm : e.commitOk
          · by_cases hcd : e.commitDoneOk
            · by_cases hct : e.clearTargetOk
              · by_cases hcs : e.clearSrcOk
                · exact ⟨rfl, hy, hcc1, hcm, hcd, hct, hcs⟩
                · simp [candidate_commit, hvc, hy, hcc1, hcm, hcd, hct, hcs] at hok
              · simp [candidate_commit, hvc, hy, hcc1, hcm, hcd, hct] at hok
            · simp [candidate_commit, hvc, hy, hcc1, hcm, hcd] at hok
          · simp [candidate_commit, hvc, hy, hcc1, hcm] at hok
        · simp [candidate_commit, hvc, hy, hcc1] at hok
      · simp [candidate_commit, hvc, hy] at hok

/-- C1: whenever validation fails inside candidate_commit — the generic
validation fails, or a plugin begin, validate or complete callback fails —
the commit reports failure, the running datastore is left untouched, no
copy of the candidate database into running is performed, and the plugin
abort callbacks are invoked. -/
theorem c1_commit_validation_failure_aborts (e : CandEnv) (xe : Bool)
    (db : String) (st : DBState)
    (hfail : e.genericValidateRes ≠ .ok ∨ e.beginOk = false ∨
      e.validateOk = false ∨ e.completeOk = false) :
    (candidate_commit e xe db st).1 ≠ .ok ∧
    (candidate_commit e xe db st).2.1.content "running" = st.content "running" ∧
    (∀ s d, Ev.copyDb s d ∉ (candidate_commit e xe db st).2.2) ∧
    Ev.abortCb ∈ (candidate_commit e xe db st).2.2 := by
  have hvcne : (validate_common e db).1 ≠ .ok := by
    intro hc
    obtain ⟨h1, h2, h3, h4, h5, h6, h7⟩ := (vc_ok_iff e db).mp hc
    rcases hfail with h | h | h | h <;> simp_all
  have hne : (candidate_commit e xe db st).1 ≠ .ok := fun hc =>
    hvcne (candidate_commit_ok_inv e xe db st hc).1
  obtain ⟨hrun, hcopy, habort⟩ := candidate_commit_fail_props e xe db st hne
  exact ⟨hne, hrun, hcopy, habort⟩

/-- The event kinds whose relative order the ordering claim speaks about. -/
def isOrderEv (v : Ev) : Bool :=
  match v with
  | .genericValidateCb => true
  | .validateCb => true
  | .commitCb => true
  | .commitDoneCb => true
  | .endCb => true
  | .copyDb _ _ => true
  | .newTxn => false
  | .load _ => false
  | .diffE => false
  | .beginCb => false
  | .completeCb => false
  | .putDb _ => false
  | .abortCb => false
  | .datastoreUpgrade => false
  | .moduleUpgrade => false
  | .confirmedCommit => false

/-- C2 (amended): for every successful candidate_commit the observable
effects happen in the order generic validation, plugin validation, plugin
commit, plugin commit-done, datastore swap (copy of db onto running),
plugin end — the swap comes after commit and commit-done, not before. -/
theorem c2_commit_event_order (e : CandEnv) (xe : Bool) (db : String)
    (st : DBState) (hok : (candidate_commit e xe db st).1 = .ok) :
    (candidate_commit e xe db st).2.2.filter isOrderEv =
      [.genericValidateCb, .validateCb, .commitCb, .commitDoneCb,
        .copyDb db "running", .endCb] := by
  obtain ⟨hvc, hy, hcc1, hcm, hcd, hct, hcs⟩ := candidate_commit_ok_inv e xe db st hok
  obtain ⟨h1, h2, h3, h4, h5, h6, h7⟩ := (vc_ok_iff e db).mp hvc
  rw [candidate_commit_ok_run e xe db st h1 h2 h3 h4 h5 h6 h7 hcc1 hcm hcd hct hcs]
  by_cases hcf : e.ccFeature && xe <;> simp [cc_phase2, hcf, isOrderEv]

/-- The all-successful environment used by the engine counterexamples and
witnesses. -/
def eAllOk : CandEnv :=
  ⟨true, .ok, .ok, true, .ok, true, true, false, true, true, true, true, true⟩

/-- An initial datastore state with no databases. -/
def st0 : DBState := ⟨fun _ => none, fun _ => false⟩

/-- Counterexample to C2 as stated: on a fully successful commit the
datastore swap event comes after plugin commit and commit-done, so the
claimed order (swap before commit) does not hold. -/
theorem c2_counterexample :
    (candidate_commit eAllOk false "candidate" st0).1 = .ok ∧
    (candidate_commit eAllOk false "candidate" st0).2.2.filter isOrderEv ≠
      [.genericValidateCb, .validateCb, .copyDb "candidate" "running",
        .commitCb, .commitDoneCb, .endCb] := by
  constructor
  · decide
  · decide

/-- Witness for C2 (amended) on a concrete run. -/
theorem c2_witness :
    (candidate_commit eAllOk false "candidate" st0).1 = .ok ∧
    (candidate_commit eAllOk false "candidate" st0).2.2.filter isOrderEv =
      [.genericValidateCb, .validateCb, .commitCb, .commitDoneCb,
        .copyDb "candidate" "running", .endCb] :=
  ⟨by decide, c2_commit_event_order eAllOk false "candidate" st0 (by decide)⟩

/-- The environment whose plugin commit callback fails. -/
def eC3 : CandEnv :=
  ⟨true, .ok, .ok, true, .ok, true, true, false, true, false, true, true, true⟩

/-- C3 (amended): if a plugin commit callback fails during the COMMIT phase
of candidate_commit, the engine reports failure and invokes the plugin
abort callbacks, but it does not invoke the commit-done callbacks. -/
theorem c3_commit_callback_failure (e : CandEnv) (xe : Bool) (db : String)
    (st : DBState) (hvc : (validate_common e db).1 = .ok) (hy : e.yspecOk = true)
    (hcc1 : (cc_phase2 e xe st).1 = true) (hcm : e.commitOk = false) :
    (candidate_commit e xe db st).1 = .err ∧
    Ev.commitDoneCb ∉ (candidate_commit e xe db st).2.2 ∧
    Ev.abortCb ∈ (candidate_commit e xe db st).2.2 := by
  have htr := vc_ok_trace e db hvc
  refine ⟨by simp [candidate_commit, hvc, hy, hcc1, hcm], ?_,
    by simp [candidate_commit, hvc, hy, hcc1, hcm]⟩
  intro hmem
  simp [candidate_commit, hvc, hy, hcc1, hcm, htr,
    cc_phase2_no_commitDone] at hmem

/-- Counterexample to C3 as stated: with a failing plugin commit callback
the run fails but the commit-done callbacks are never invoked. -/
theorem c3_counterexample :
    (candidate_commit eC3 false "candidate" st0).1 = .err ∧
    Ev.commitDoneCb ∉ (candidate_commit eC3 false "candidate" st0).2.2 := by
  constructor
  · decide
  · decide

/-- Witness for C3 (amended) on a concrete run. -/
theorem c3_witness :
    (validate_common eC3 "candidate").1 = .ok ∧ eC3.yspecOk = true ∧
    (cc_phase2 eC3 false st0).1 = true ∧ eC3.commitOk = false ∧
    ((candidate_commit eC3 false "candidate" st0).1 = .err ∧
      Ev.commitDoneCb ∉ (candidate_commit eC3 false "candidate" st0).2.2 ∧
      Ev.abortCb ∈ (candidate_commit eC3 false "candidate" st0).2.2) :=
  ⟨by decide, by decide, by decide, by decide,
    c3_commit_callback_failure eC3 false "candidate" st0
      (by decide) (by decide) (by decide) (by decide)⟩

/-- The environment whose generic validation fails. -/
def eC1 : CandEnv :=
  ⟨true, .ok, .ok, true, .invalid, true, true, false, true, true, true, true, true⟩

/-- Witness for C1 on a concrete run with failing generic validation. -/
theorem c1_witness :
    (eC1.genericValidateRes ≠ Res.ok ∨ eC1.beginOk = false ∨
      eC1.validateOk = false ∨ eC1.completeOk = false) ∧
    ((candidate_commit eC1 false "candidate" st0).1 ≠ .ok ∧
      (candidate_commit eC1 false "candidate" st0).2.1.content "running" =
        st0.content "running" ∧
      (∀ s d, Ev.copyDb s d ∉ (candidate_commit eC1 false "candidate" st0).2.2) ∧
      Ev.abortCb ∈ (candidate_commit eC1 false "candidate" st0).2.2) :=
  ⟨by decide,
    c1_commit_validation_failure_aborts eC1 false "candidate" st0 (by decide)⟩

/-- Startup result: -1 error, 0 invalid, 1 OK, or the process exit taken by
the -q upgrade-quit switch. -/
inductive SRes where
  | err
  | invalid
  | ok
  | exited
deriving DecidableEq, Repr

/-- Transaction data of a startup run: the handcrafted add-only diff. -/
structure Txd where
  target : Option Cxobj
  avec : List Cxobj
  dlen : Nat
  clen : Nat

/-- transaction_new(): all vectors empty. -/
def transaction_new : Txd := ⟨none, [], 0, 0⟩

/-- Environment of one startup_common run: the outcome of each external
call its control flow branches on, and the tree transformations performed
by the calls that rewrite the loaded XML. -/
structure StartupEnv where
  modstateOpt : Bool
  checkOld : Bool
  loadRes : Res
  loadTree : Cxobj
  yspecOk : Bool
  dsUpgradeOk : Bool
  dsUpgradeF : Cxobj → Cxobj
  modUpgradeRes : Res
  modUpgradeF : Cxobj → Cxobj
  quitUpgrade : Bool
  bindRes : Res
  nonConfigRes : Res
  sortOk : Bool
  sortF : Cxobj → Cxobj
  defaultsOk : Bool
  defaultsF : Cxobj → Cxobj
  beginOk : Bool
  genericValidateRes : Res
  validateOk : Bool
  completeOk : Bool
  commitOk : Bool
  commitDoneOk : Bool
  clearOk : Bool
  putRes : Res
  putContent : String

/-- The marking of one added top-level node in startup_common:
xml_flag_set(x, XML_FLAG_ADD) followed by xml_apply(x, CX_ELMNT,
xml_flag_set, XML_FLAG_ADD). -/
def markAddNode (x : Cxobj) : Cxobj :=
  xml_apply_flag_set XML_FLAG_ADD (xml_flag_set x XML_FLAG_ADD)

/-- The handcrafted add-only diff loop of startup_common: every element
child of the target is flagged ADD recursively and appended to the added
vector. -/
def startup_mark_add (t : Cxobj) : Cxobj × List Cxobj :=
  let cs2 := t.children.map (fun c => if c.typ = .elmnt then markAddNode c else c)
  (.mk t.name t.nsp t.typ t.value t.flags cs2,
    cs2.filter (fun c => decide (c.typ = .elmnt)))

/-- The tree of startup_common after flag clearing and the two-stage
datastore upgrade pass. -/
def startup_loaded_tree (e : StartupEnv) : Cxobj :=
  let t0 := xml_apply0_flag_reset (XML_FLAG_MARK ||| XML_FLAG_CHANGE) e.loadTree
  let t1 := e.dsUpgradeF t0
  if e.modstateOpt then e.modUpgradeF t1 else t1

/-- The part of startup_common after the initial xmldb_get0: yang-spec
check, flag clear, datastore upgrade, module upgrade, the -q exit, the
empty-tree shortcut, bind/state-check/sort/defaults, the add-only marking,
and the begin / generic-validate / validate / complete chain. -/
def startup_after_load (e : StartupEnv) : SRes × Txd × List Ev :=
  if ¬ e.yspecOk then (.err, transaction_new, [])
  else if ¬ e.dsUpgradeOk then (.err, transaction_new, [.datastoreUpgrade])
  else if e.modstateOpt ∧ e.modUpgradeRes = .err then
    (.err, transaction_new, [.datastoreUpgrade, .moduleUpgrade])
  else if e.modstateOpt ∧ e.modUpgradeRes = .invalid then
    (.invalid, transaction_new, [.datastoreUpgrade, .moduleUpgrade])
  else
    let trU : List Ev :=
      if e.modstateOpt then [.datastoreUpgrade, .moduleUpgrade] else [.datastoreUpgrade]
    if e.quitUpgrade then (.exited, transaction_new, trU)
    else
      let xt := startup_loaded_tree e
      if xt.children.isEmpty then (.ok, { transaction_new with target := some xt }, trU)
      else if e.bindRes = .err then (.err, transaction_new, trU)
      else if e.bindRes = .invalid then (.invalid, transaction_new, trU)
      else if e.nonConfigRes = .err then (.err, transaction_new, trU)
      else if e.nonConfigRes = .invalid then (.invalid, transaction_new, trU)
      else if ¬ e.sortOk then (.err, transaction_new, trU)
      else if ¬ e.defaultsOk then (.err, transaction_new, trU)
      else
        let m := startup_mark_add (e.defaultsF (e.sortF xt))
        let td : Txd := ⟨some m.1, m.2, 0, 0⟩
        if ¬ e.beginOk then (.err, td, trU ++ [.beginCb])
        else if e.genericValidateRes = .err then
          (.err, td, trU ++ [.beginCb, .genericValidateCb])
        else if e.genericValidateRes = .invalid then
          (.invalid, td, trU ++ [.beginCb, .genericValidateCb])
        else if ¬ e.validateOk then
          (.err, td, trU ++ [.beginCb, .genericValidateCb, .validateCb])
        else if ¬ e.completeOk then
          (.err, td, trU ++ [.beginCb, .genericValidateCb, .validateCb, .completeCb])
        else (.ok, td, trU ++ [.beginCb, .genericValidateCb, .validateCb, .completeCb])

/-- startup_common(h, db, td, cbret): read the startup datastore (with or
without the CLICON_XMLDB_UPGRADE_CHECKOLD pre-validation), then run
startup_after_load. -/
def startup_common (e : StartupEnv) (db : String) : SRes × Txd × List Ev :=
  if e.checkOld ∧ e.loadRes = .err then (.err, transaction_new, [.load db])
  else if e.checkOld ∧ e.loadRes = .invalid then
    (if e.quitUpgrade then (.exited, transaction_new, [.load db])
     else (.invalid, transaction_new, [.load db]))
  else if ¬ e.checkOld ∧ e.loadRes = .err then (.err, transaction_new, [.load db])
  else
    let r := startup_after_load e
    (r.1, r.2.1, .load db :: r.2.2)

/-- startup_validate(h, db, xtr, cbret): run startup_common in a fresh
transaction; abort on failure, end on success. -/
def startup_validate (e : StartupEnv) (db : String) : SRes × Txd × List Ev :=
  let r := startup_common e db
  let tr := Ev.newTxn :: r.2.2
  match r.1 with
  | .err => (.err, r.2.1, tr ++ [.abortCb])
  | .invalid => (.invalid, r.2.1, tr ++ [.abortCb])
  | .exited => (.exited, r.2.1, tr)
  | .ok => (.ok, r.2.1, tr ++ [.endCb])

/-- startup_commit(h, db, cbret): refuse db == running, run startup_common
in a fresh transaction, then plugin commit, commit-done, recreate running,
xmldb_put the target into running, and plugin end; abort on failure. -/
def startup_commit (e : StartupEnv) (db : String) (st : DBState) :
    SRes × DBState × List Ev :=
  if db = "running" then (.err, st, [])
  else
    let r := startup_common e db
    let tr := Ev.newTxn :: r.2.2
    match r.1 with
    | .err => (.err, st, tr ++ [.abortCb])
    | .invalid => (.invalid, st, tr ++ [.abortCb])
    | .exited => (.exited, st, tr)
    | .ok =>
      if ¬ e.commitOk then (.err, st, tr ++ [.commitCb, .abortCb])
      else if ¬ e.commitDoneOk then
        (.err, st, tr ++ [.commitCb, .commitDoneCb, .abortCb])
      else if ¬ e.clearOk then
        (.err, st, tr ++ [.commitCb, .commitDoneCb, .abortCb])
      else
        let st1 := if (st.content "running").isSome then xmldb_delete st "running" else st
        let st2 := xmldb_create st1 "running"
        match e.putRes with
        | .err =>
            (.err, st2, tr ++ [.commitCb, .commitDoneCb, .putDb "running", .abortCb])
        | .invalid =>
            (.invalid, st2, tr ++ [.commitCb, .commitDoneCb, .putDb "running", .abortCb])
        | .ok =>
            let st3 := { st2 with content := fun n =>
              if n = "running" then some e.putContent else st2.content n }
            (.ok, st3, tr ++ [.commitCb, .commitDoneCb, .putDb "running", .endCb])

/-- markAddNode preserves the root node type. -/
theorem markAddNode_typ (x : Cxobj) : (markAddNode x).typ = x.typ := by
  cases x with
  | mk n p ty v fl cs => rfl

/-- The added vector produced by startup_mark_add is exactly the element
children of the marked target, and each entry carries XML_FLAG_ADD on
itself and on all its element descendants. -/
theorem startup_mark_add_props (t : Cxobj) :
    (startup_mark_add t).2 =
      (startup_mark_add t).1.children.filter (fun c => decide (c.typ = .elmnt)) ∧
    ∀ x ∈ (startup_mark_add t).2, xml_flag x XML_FLAG_ADD = true ∧
      ∀ r y, r ≠ [] → nodeAt x r = some y → y.typ = .elmnt →
        xml_flag y XML_FLAG_ADD = true := by
  constructor
  · simp [startup_mark_add, Cxobj.children]
  · intro x hx
    simp only [startup_mark_add, List.mem_filter, List.mem_map] at hx
    obtain ⟨⟨c, hc, rfl⟩, hty⟩ := hx
    by_cases hcty : c.typ = .elmnt
    · simp only [if_pos hcty]
      constructor
      · exact xml_flag_markNode XML_FLAG_ADD (by decide) c
      · intro r y hr hnode hyty
        have htyr : typAt c r = some .elmnt := by
          have hpres : typAt (markAddNode c) r = typAt c r := by
            rw [markAddNode, typAt_apply_flag_set, typAt_flag_set]
          rw [← hpres, typAt]
          rw [hnode]
          simp [hyty]
        have hflag : flagAt (markAddNode c) r XML_FLAG_ADD = true := by
          rw [markAddNode]
          exact flagAt_apply_flag_set_elmnt XML_FLAG_ADD (by decide) r
            (xml_flag_set c XML_FLAG_ADD) hr
            ((typAt_flag_set XML_FLAG_ADD r c).trans htyr)
        rw [flagAt] at hflag
        rw [hnode] at hflag
        exact hflag
    · -- non-element children are left alone but cannot pass the filter
      simp only [if_neg hcty] at hty
      simp [hcty] at hty

/-- Characterization of the transaction data of a startup_common run that
reaches plugin validation with a non-empty upgraded tree. -/
theorem startup_common_td (e : StartupEnv) (db : String)
    (h1 : e.loadRes = .ok) (h2 : e.yspecOk = true) (h3 : e.dsUpgradeOk = true)
    (h4 : e.modstateOpt = true → e.modUpgradeRes = .ok)
    (h5 : e.quitUpgrade = false)
    (h6 : (startup_loaded_tree e).children.isEmpty = false)
    (h7 : e.bindRes = .ok) (h8 : e.nonConfigRes = .ok) (h9 : e.sortOk = true)
    (h10 : e.defaultsOk = true) (h11 : e.beginOk = true) :
    (startup_common e db).2.1 =
      ⟨some (startup_mark_add (e.defaultsF (e.sortF (startup_loaded_tree e)))).1,
        (startup_mark_add (e.defaultsF (e.sortF (startup_loaded_tree e)))).2, 0, 0⟩ := by
  by_cases hms : e.modstateOpt <;>
    rcases hgv : e.genericValidateRes <;>
    by_cases hv : e.validateOk <;>
    by_cases hc : e.completeOk <;>
    simp [startup_common, startup_after_load, h1, h2, h3, h4, h5, h6, h7, h8,
      h9, h10, h11, hms, hgv, hv, hc]

/-- Trace prefix of a startup_common run that reaches plugin validation:
load, then the datastore upgrade pass, then begin and generic
validation. -/
theorem startup_common_trace (e : StartupEnv) (db : String)
    (h1 : e.loadRes = .ok) (h2 : e.yspecOk = true) (h3 : e.dsUpgradeOk = true)
    (h4 : e.modstateOpt = true → e.modUpgradeRes = .ok)
    (h5 : e.quitUpgrade = false)
    (h6 : (startup_loaded_tree e).children.isEmpty = false)
    (h7 : e.bindRes = .ok) (h8 : e.nonConfigRes = .ok) (h9 : e.sortOk = true)
    (h10 : e.defaultsOk = true) (h11 : e.beginOk = true) :
    (e.modstateOpt = true → (startup_common e db).2.2.take 5 =
      [.load db, .datastoreUpgrade, .moduleUpgrade, .beginCb, .genericValidateCb]) ∧
    (e.modstateOpt = false → (startup_common e db).2.2.take 4 =
      [.load db, .datastoreUpgrade, .beginCb, .genericValidateCb]) := by
  by_cases hms : e.modstateOpt <;>
    rcases hgv : e.genericValidateRes <;>
    by_cases hv : e.validateOk <;>
    by_cases hc : e.completeOk <;>
    simp [startup_common, startup_after_load, h1, h2, h3, h4, h5, h6, h7, h8,
      h9, h10, h11, hms, hgv, hv, hc]

/-- C5: for every startup_commit or startup_validate run (both drive
startup_common) with a non-empty startup tree that reaches validation, the
diff degenerates to all-adds: the added vector is exactly the element
children of the target tree, each flagged ADD on itself and all its element
descendants; the deleted and changed vectors stay empty; and the datastore
upgrade pass runs after loading the tree and before generic validation. -/
theorem c5_startup_all_adds (e : StartupEnv) (db : String)
    (h1 : e.loadRes = .ok) (h2 : e.yspecOk = true) (h3 : e.dsUpgradeOk = true)
    (h4 : e.modstateOpt = true → e.modUpgradeRes = .ok)
    (h5 : e.quitUpgrade = false)
    (h6 : (startup_loaded_tree e).children.isEmpty = false)
    (h7 : e.bindRes = .ok) (h8 : e.nonConfigRes = .ok) (h9 : e.sortOk = true)
    (h10 : e.defaultsOk = true) (h11 : e.beginOk = true) :
    (startup_common e db).2.1.dlen = 0 ∧ (startup_common e db).2.1.clen = 0 ∧
    (∃ tgt, (startup_common e db).2.1.target = some tgt ∧
      (startup_common e db).2.1.avec =
        tgt.children.filter (fun c => decide (c.typ = .elmnt))) ∧
    (∀ x ∈ (startup_common e db).2.1.avec, xml_flag x XML_FLAG_ADD = true ∧
      ∀ r y, r ≠ [] → nodeAt x r = some y → y.typ = .elmnt →
        xml_flag y XML_FLAG_ADD = true) ∧
    (e.modstateOpt = true → (startup_common e db).2.2.take 5 =
      [.load db, .datastoreUpgrade, .moduleUpgrade, .beginCb, .genericValidateCb]) ∧
    (e.modstateOpt = false → (startup_common e db).2.2.take 4 =
      [.load db, .datastoreUpgrade, .beginCb, .genericValidateCb]) := by
  have htd := startup_common_td e db h1 h2 h3 h4 h5 h6 h7 h8 h9 h10 h11
  have htr := startup_common_trace e db h1 h2 h3 h4 h5 h6 h7 h8 h9 h10 h11
  have hmark := startup_mark_add_props (e.defaultsF (e.sortF (startup_loaded_tree e)))
  refine ⟨by rw [htd], by rw [htd], ?_, ?_, htr.1, htr.2⟩
  · exact ⟨(startup_mark_add (e.defaultsF (e.sortF (startup_loaded_tree e)))).1,
      by rw [htd], by rw [htd]; exact hmark.1⟩
  · intro x hx
    rw [htd] at hx
    exact hmark.2 x hx

/-- C10: startup_commit invoked on the running database fails immediately:
no transaction is created, no plugin callback is invoked (the event trace
is empty) and the datastore state is unchanged. -/
theorem c10_startup_commit_running_refused (e : StartupEnv) (st : DBState) :
    startup_commit e "running" st = (.err, st, []) := by
  simp [startup_commit]

/-- A concrete startup environment: one element child in the startup tree,
all external calls succeeding, tree transformations the identity. -/
def eC5 : StartupEnv :=
  ⟨false, false, .ok,
   Cxobj.mk "config" none .elmnt none 0 [Cxobj.mk "a" none .elmnt none 0 []],
   true, true, id, .ok, id, false, .ok, .ok, true, id, true, id, true, .ok,
   true, true, true, true, true, .ok, ""⟩

/-- Witness for C5 on a concrete startup run. -/
theorem c5_witness :
    ((startup_loaded_tree eC5).children.isEmpty = false) ∧
    (startup_common eC5 "startup").2.1.dlen = 0 ∧
    (startup_common eC5 "startup").2.1.clen = 0 ∧
    (∃ tgt, (startup_common eC5 "startup").2.1.target = some tgt ∧
      (startup_common eC5 "startup").2.1.avec =
        tgt.children.filter (fun c => decide (c.typ = .elmnt))) ∧
    (startup_common eC5 "startup").2.2.take 4 =
      [.load "startup", .datastoreUpgrade, .beginCb, .genericValidateCb] := by
  have h := c5_startup_all_adds eC5 "startup" (by decide) (by decide) (by decide)
    (by decide) (by decide) (by decide) (by decide) (by decide) (by decide)
    (by decide) (by decide)
  exact ⟨by decide, h.1, h.2.1, h.2.2.1, h.2.2.2.2.2 (by decide)⟩

/-- load_failsafe(h, phase): if the failsafe store exists, back running up
to tmp, reset running and commit the failsafe store via candidate_commit;
restore running from tmp if that commit does not succeed.  Returns 0 on
success and -1 on error. -/
def load_failsafe (e : CandEnv) (st : DBState) : Int × DBState :=
  match st.content "failsafe" with
  | none => (-1, st)
  | some _ =>
    let st2 := xmldb_db_reset (xmldb_copy st "running" "tmp") "running"
    let r := candidate_commit e false "failsafe" st2
    if r.1 ≠ .ok then (-1, xmldb_copy r.2.1 "tmp" "running")
    else (0, r.2.1)

/-- C9: load_failsafe backs running up to tmp, resets running and commits
the failsafe store via candidate_commit; if the failsafe store does not
exist or the commit does not succeed it returns the error status -1, and on
success running equals the failsafe content. -/
theorem c9_load_failsafe_recovery (e : CandEnv) (st : DBState) :
    (st.content "failsafe" = none → load_failsafe e st = (-1, st)) ∧
    ((candidate_commit e false "failsafe"
        (xmldb_db_reset (xmldb_copy st "running" "tmp") "running")).1 ≠ .ok →
      (load_failsafe e st).1 = -1) ∧
    ((e.yspecOk = true ∧ e.getTarget = .ok ∧ e.getSrc = .ok ∧ e.beginOk = true ∧
        e.genericValidateRes = .ok ∧ e.validateOk = true ∧ e.completeOk = true ∧
        e.commitOk = true ∧ e.commitDoneOk = true ∧ e.clearTargetOk = true ∧
        e.clearSrcOk = true) →
      st.content "failsafe" ≠ none →
      (load_failsafe e st).1 = 0 ∧
      (load_failsafe e st).2.content "running" = st.content "failsafe") := by
  refine ⟨?_, ?_, ?_⟩
  · intro h
    simp [load_failsafe, h]
  · intro h
    cases hc : st.content "failsafe" with
    | none => simp [load_failsafe, hc]
    | some s => simp [load_failsafe, hc, if_pos h]
  · intro hok hfs
    obtain ⟨hy, hgt, hgs, hbg, hgv, hvd, hcp, hcm, hcd, hct, hcs⟩ := hok
    have hcc1 : (cc_phase2 e false
        (xmldb_db_reset (xmldb_copy st "running" "tmp") "running")).1 = true := by
      simp [cc_phase2]
    have hrun := candidate_commit_ok_run e false "failsafe"
      (xmldb_db_reset (xmldb_copy st "running" "tmp") "running")
      hy hgt hgs hbg hgv hvd hcp hcc1 hcm hcd hct hcs
    cases hc : st.content "failsafe" with
    | none => exact absurd hc hfs
    | some s =>
        constructor
        · simp only [load_failsafe, hc, hrun]
          simp
        · simp only [load_failsafe, hc, hrun]
          simp [cc_phase2, xmldb_modified_set, xmldb_copy, xmldb_db_reset]
          exact hc

/-- A concrete datastore state holding failsafe and running stores. -/
def stC9 : DBState :=
  ⟨fun n => if n = "failsafe" then some "FS"
    else if n = "running" then some "R" else none,
   fun _ => false⟩

/-- Witness for C9 on a concrete recovery run. -/
theorem c9_witness :
    (eAllOk.yspecOk = true ∧ eAllOk.getTarget = .ok ∧ eAllOk.getSrc = .ok ∧
      eAllOk.beginOk = true ∧ eAllOk.genericValidateRes = .ok ∧
      eAllOk.validateOk = true ∧ eAllOk.completeOk = true ∧
      eAllOk.commitOk = true ∧ eAllOk.commitDoneOk = true ∧
      eAllOk.clearTargetOk = true ∧ eAllOk.clearSrcOk = true) ∧
    stC9.content "failsafe" ≠ none ∧
    ((load_failsafe eAllOk stC9).1 = 0 ∧
      (load_failsafe eAllOk stC9).2.content "running" = stC9.content "failsafe") :=
  ⟨by decide, by decide,
    (c9_load_failsafe_recovery eAllOk stC9).2.2 (by decide) (by decide)⟩

/-- One changelog step {op, where, when?, tag?, dst?, new?}.  The XPath
selectors are modelled from the spec as abstract selection functions (the
XPath engine is not part of the source under review): where yields the
matched positions, when filters a match, tag yields the new name in the
match's context, dst selects the move destination. -/
structure ClStep where
  op : Option String
  whereSel : Option (Cxobj → List XPathIdx)
  whenF : Option (Cxobj → Bool)
  tagF : Option (Cxobj → String)
  dstSel : Option (Cxobj → Option XPathIdx)
  newX : Option Cxobj

/-- One changelog entry: its module namespace, its optional revfrom and
revision dates parsed to YYYYMMDD numbers, and its steps in declared
order. -/
structure ClEntry where
  ns : String
  revfrom : Option Nat
  revision : Option Nat
  steps : List ClStep

/-- Remove the i-th entry of a list. -/
def listRemove : Nat → List α → List α
  | _, [] => []
  | 0, _ :: as => as
  | i + 1, a :: as => a :: listRemove i as

/-- xml_purge at a position: detach the node at p from its parent
(identity at the root or at an invalid position). -/
def removeAt : XPathIdx → Cxobj → Cxobj
  | [], t => t
  | [i], .mk n np ty v fl cs => .mk n np ty v fl (listRemove i cs)
  | i :: p, .mk n np ty v fl cs => .mk n np ty v fl (listModify (removeAt p) i cs)

/-- changelog_replace(h, xt, xw, xnew): error if new is absent; remove all
children of the target; error if new does not have exactly one child;
attach a deep copy of that single child. -/
def changelog_replace (xw : Cxobj) (xnew : Option Cxobj) : Option Cxobj :=
  match xnew with
  | none => none
  | some xn =>
    -- replace: remove all children of target
    let xw1 := Cxobj.mk xw.name xw.nsp xw.typ xw.value xw.flags []
    -- replace: first single node under new
    if xn.children.length ≠ 1 then none
    else
      match xn.children.head? with
      | none => none
      | some c =>
          some (Cxobj.mk xw1.name xw1.nsp xw1.typ xw1.value xw1.flags
            (xw1.children ++ [c]))

/-- changelog_insert(h, xt, xw, xnew): error if new is absent; attach
copies of all children of new to the target. -/
def changelog_insert (xw : Cxobj) (xnew : Option Cxobj) : Option Cxobj :=
  match xnew with
  | none => none
  | some xn =>
      some (Cxobj.mk xw.name xw.nsp xw.typ xw.value xw.flags
        (xw.children ++ xn.children))

/-- changelog_rename(h, xt, xw, nsc, tag): error if tag is absent or its
string value in the match's context is empty; otherwise rename the
match. -/
def changelog_rename (xw : Cxobj) (tagF : Option (Cxobj → String)) : Option Cxobj :=
  match tagF with
  | none => none
  | some tg =>
    let s := tg xw
    if s.length = 0 then none else some (xml_name_set xw s)

/-- The when filter of a changelog step evaluated at a matched node: a
missing when accepts every match. -/
def stepWhenPass (s : ClStep) (x : Cxobj) : Bool :=
  match s.whenF with
  | some w => w x
  | none => true

/-- One iteration of the target-node loop in changelog_op: skip the match
when the when filter rejects it, otherwise dispatch on the operation. -/
def changelog_op_apply (s : ClStep) (op : String) (xt : Cxobj) (p : XPathIdx) :
    Option Cxobj :=
  match nodeAt xt p with
  | none => none
  | some xw =>
    if stepWhenPass s xw = false then some xt
    else if op = "rename" then
      (changelog_rename xw s.tagF).map (fun xw2 => modifyAt (fun _ => xw2) p xt)
    else if op = "replace" then
      (changelog_replace xw s.newX).map (fun xw2 => modifyAt (fun _ => xw2) p xt)
    else if op = "insert" then
      (changelog_insert xw s.newX).map (fun xw2 => modifyAt (fun _ => xw2) p xt)
    else if op = "delete" then
      some (removeAt p xt)
    else if op = "move" then
      match s.dstSel with
      | none => none
      | some ds =>
        let t1 := removeAt p xt
        match ds t1 with
        | none => none
        | some q =>
            some (modifyAt (fun xp =>
              Cxobj.mk xp.name xp.nsp xp.typ xp.value xp.flags (xp.children ++ [xw])) q t1)
    else none

/-- The target-node loop of changelog_op over the where matches. -/
def changelog_op_loop (s : ClStep) (op : String) :
    List XPathIdx → Cxobj → Option Cxobj
  | [], xt => some xt
  | p :: ps, xt =>
    match changelog_op_apply s op xt p with
    | none => none
    | some xt2 => changelog_op_loop s op ps xt2

/-- changelog_op(h, xt, xi): a step without op or where is a no-op;
otherwise the where matches are computed once and processed in order. -/
def changelog_op (xt : Cxobj) (s : ClStep) : Option Cxobj :=
  match s.op with
  | none => some xt
  | some op =>
    match s.whereSel with
    | none => some xt
    | some sel => changelog_op_loop s op (sel xt) xt

/-- changelog_iterate(h, xt, xch): apply the steps of one changelog entry
in declared order. -/
def changelog_iterate : Cxobj → List ClStep → Option Cxobj
  | xt, [] => some xt
  | xt, s :: ss =>
    match changelog_op xt s with
    | none => none
    | some xt2 => changelog_iterate xt2 ss

/-- The revision window test of xml_changelog_upgrade: with f the parsed
revfrom (0 if absent) and t the parsed revision (0 if absent), an entry is
skipped iff (f != 0 and from > f) or to < t. -/
def changelog_entry_applies (fromRev toRev : Nat) (c : ClEntry) : Bool :=
  decide (¬ ((c.revfrom.getD 0 ≠ 0 ∧ fromRev > c.revfrom.getD 0) ∨
    toRev < c.revision.getD 0))

/-- The entry loop of xml_changelog_upgrade. -/
def changelog_loop (fromRev toRev : Nat) : List ClEntry → Cxobj → Option Cxobj
  | [], xt => some xt
  | c :: cs, xt =>
    if changelog_entry_applies fromRev toRev c then
      match changelog_iterate xt c.steps with
      | none => none
      | some xt2 => changelog_loop fromRev toRev cs xt2
    else changelog_loop fromRev toRev cs xt

/-- xml_changelog_upgrade(h, xt, ns, op, from, to, arg, cbret): a no-op
unless the changelog option is enabled and a changelog is loaded; otherwise
iterate over the entries of the module's namespace and apply those passing
the revision window test. -/
def xml_changelog_upgrade (enabled : Bool) (chlog : Option (List ClEntry))
    (ns : String) (fromRev toRev : Nat) (xt : Cxobj) : Option Cxobj :=
  if ¬ enabled then some xt
  else
    match chlog with
    | none => some xt
    | some entries =>
        changelog_loop fromRev toRev (entries.filter (fun c => c.ns == ns)) xt

/-- Sequential application of changelog entries with no skipping. -/
def changelog_apply_all : List ClEntry → Cxobj → Option Cxobj
  | [], xt => some xt
  | c :: cs, xt =>
    match changelog_iterate xt c.steps with
    | none => none
    | some xt2 => changelog_apply_all cs xt2

/-- The claimed revision window of C6: revision strictly after from and at
most to. -/
def changelog_entry_in_claimed_interval (fromRev toRev : Nat) (c : ClEntry) : Bool :=
  decide (fromRev < c.revision.getD 0 ∧ c.revision.getD 0 ≤ toRev)

/-- The entry loop applies exactly the entries passing the code's revision
window test, in order. -/
theorem changelog_loop_eq_filter (fromRev toRev : Nat) (l : List ClEntry)
    (xt : Cxobj) :
    changelog_loop fromRev toRev l xt =
      changelog_apply_all (l.filter (changelog_entry_applies fromRev toRev)) xt := by
  induction l generalizing xt with
  | nil => rfl
  | cons c cs ih =>
      by_cases hc : changelog_entry_applies fromRev toRev c
      · simp only [changelog_loop, hc, if_pos, List.filter_cons_of_pos hc,
          changelog_apply_all]
        cases changelog_iterate xt c.steps with
        | none => rfl
        | some xt2 => exact ih xt2
      · simp only [changelog_loop, hc, if_neg,
          List.filter_cons_of_neg (by simpa using hc)]
        simp only [Bool.false_eq_true, if_false]
        exact ih xt

/-- C6 (amended): with the changelog enabled and loaded, the upgrade
applies, in declared order, exactly those entries of the module's namespace
whose revfrom (when present) is at least from and whose revision (0 when
absent) is at most to; all other entries are skipped and contribute
nothing. -/
theorem c6_changelog_window (entries : List ClEntry) (ns : String)
    (fromRev toRev : Nat) (xt : Cxobj) :
    xml_changelog_upgrade true (some entries) ns fromRev toRev xt =
      changelog_apply_all
        (entries.filter (fun c =>
          c.ns == ns && changelog_entry_applies fromRev toRev c)) xt := by
  simp only [xml_changelog_upgrade, not_true, if_false]
  rw [changelog_loop_eq_filter, List.filter_filter]
  apply congrFun
  apply congrArg
  apply List.filter_congr
  intro a _
  exact Bool.and_comm _ _

/-- A tree whose single child is deleted by the counterexample step. -/
def c6tree : Cxobj :=
  .mk "config" none .elmnt none 0 [.mk "old" none .elmnt none 0 []]

/-- A delete step matching the first child of the tree. -/
def c6step : ClStep := ⟨some "delete", some (fun _ => [[0]]), none, none, none, none⟩

/-- A changelog entry whose revision 2020-01-01 lies outside the claimed
interval (2023-01-01, 2023-06-01] and that has no revfrom. -/
def c6entry : ClEntry := ⟨"urn:a", none, some 20200101, [c6step]⟩

/-- Counterexample to C6 as stated: the entry's revision is outside the
claimed interval (from, to], yet the code applies it (its revfrom is
absent and its revision is at most to) and the tree changes. -/
theorem c6_counterexample :
    changelog_entry_in_claimed_interval 20230101 20230601 c6entry = false ∧
    xml_changelog_upgrade true (some [c6entry]) "urn:a" 20230101 20230601 c6tree ≠
      some c6tree := by
  constructor
  · decide
  · intro h
    have hval : xml_changelog_upgrade true (some [c6entry]) "urn:a"
        20230101 20230601 c6tree = some (Cxobj.mk "config" none .elmnt none 0 []) := rfl
    rw [hval] at h
    simp [c6tree] at h

/-- Positions that are disjoint (neither a prefix of the other) do not
interfere under modifyAt. -/
theorem nodeAt_modifyAt_disjoint (g : Cxobj → Cxobj) {p q : XPathIdx}
    (t : Cxobj) (h1 : ¬ p <+: q) (h2 : ¬ q <+: p) :
    nodeAt (modifyAt g p t) q = nodeAt t q := by
  induction q generalizing p t with
  | nil => exact absurd List.nil_prefix h2
  | cons j q' ih =>
      cases p with
      | nil => exact absurd List.nil_prefix h1
      | cons i p' =>
          cases t with
          | mk n np ty v fl cs =>
            by_cases hij : i = j
            · subst hij
              have hp : ¬ p' <+: q' := fun hc => h1 (List.cons_prefix_cons.mpr ⟨rfl, hc⟩)
              have hq : ¬ q' <+: p' := fun hc => h2 (List.cons_prefix_cons.mpr ⟨rfl, hc⟩)
              simp only [modifyAt, nodeAt, Cxobj.children]
              rw [listModify_get_eq]
              cases hc : cs.get? i with
              | none => simp
              | some c => simpa using ih c hp hq
            · simp only [modifyAt, nodeAt, Cxobj.children]
              rw [listModify_get_ne _ hij]

/-- The replace loop over pairwise-disjoint valid matches: it succeeds when
new has exactly one child, rewrites each when-passing match to the
child-stripped node carrying a copy of that single child, leaves
when-rejected matches alone, and leaves every disjoint position
untouched. -/
theorem changelog_replace_loop_ok (s : ClStep) (xn c : Cxobj)
    (hnew : s.newX = some xn) (hc : xn.children = [c]) :
    ∀ (ps : List XPathIdx) (t : Cxobj),
      (∀ p ∈ ps, (nodeAt t p).isSome = true) →
      ps.Pairwise (fun p q => ¬ p <+: q ∧ ¬ q <+: p) →
      ∃ t2, changelog_op_loop s "replace" ps t = some t2 ∧
        (∀ p ∈ ps, ∀ x, nodeAt t p = some x →
          (stepWhenPass s x = true →
            nodeAt t2 p = some (Cxobj.mk x.name x.nsp x.typ x.value x.flags [c])) ∧
          (stepWhenPass s x = false → nodeAt t2 p = some x)) ∧
        (∀ q, (∀ p ∈ ps, ¬ p <+: q ∧ ¬ q <+: p) → nodeAt t2 q = nodeAt t q) := by
  intro ps
  induction ps with
  | nil =>
      intro t _ _
      exact ⟨t, rfl, by simp, fun q _ => rfl⟩
  | cons p0 ps' ih =>
      intro t hval hpair
      have hx0 : ∃ x0, nodeAt t p0 = some x0 := by
        have := hval p0 (by simp)
        cases hn : nodeAt t p0 with
        | none => rw [hn] at this; simp at this
        | some x0 => exact ⟨x0, rfl⟩
      obtain ⟨x0, hx0⟩ := hx0
      have hdisj : ∀ p ∈ ps', ¬ p0 <+: p ∧ ¬ p <+: p0 :=
        fun p hp => (List.pairwise_cons.mp hpair).1 p hp
      have hrepl : changelog_replace x0 s.newX =
          some (Cxobj.mk x0.name x0.nsp x0.typ x0.value x0.flags [c]) := by
        rw [hnew]
        simp only [changelog_replace]
        rw [hc]
        simp
      cases hpass : stepWhenPass s x0 with
      | false =>
          -- match skipped, tree unchanged
          have happ : changelog_op_apply s "replace" t p0 = some t := by
            simp [changelog_op_apply, hx0, hpass]
          obtain ⟨t2, hloop, hprops, hout⟩ :=
            ih t (fun p hp => hval p (by simp [hp])) (List.pairwise_cons.mp hpair).2
          refine ⟨t2, ?_, ?_, ?_⟩
          · simp [changelog_op_loop, happ, hloop]
          · intro p hp x hxp
            rcases List.mem_cons.mp hp with rfl | hp'
            · have hxx : x = x0 := by rw [hx0] at hxp; exact (Option.some_inj.mp hxp).symm
              subst hxx
              constructor
              · intro hcon; rw [hcon] at hpass; cases hpass
              · intro _
                rw [hout p (fun q hq => ⟨(hdisj q hq).2, (hdisj q hq).1⟩)]
                exact hxp
            · exact hprops p hp' x hxp
          · intro q hq
            exact hout q (fun p hp => hq p (by simp [hp]))
      | true =>
          -- match rewritten in place
          have happ : changelog_op_apply s "replace" t p0 =
              some (modifyAt (fun _ =>
                Cxobj.mk x0.name x0.nsp x0.typ x0.value x0.flags [c]) p0 t) := by
            simp [changelog_op_apply, hx0, hpass, hrepl]
          set t1 := modifyAt (fun _ =>
            Cxobj.mk x0.name x0.nsp x0.typ x0.value x0.flags [c]) p0 t with ht1
          have ht1at : ∀ p ∈ ps', nodeAt t1 p = nodeAt t p := by
            intro p hp
            exact nodeAt_modifyAt_disjoint _ t (hdisj p hp).1 (hdisj p hp).2
          have ht1p0 : nodeAt t1 p0 =
              some (Cxobj.mk x0.name x0.nsp x0.typ x0.value x0.flags [c]) := by
            have := nodeAt_modifyAt_append (fun _ =>
              Cxobj.mk x0.name x0.nsp x0.typ x0.value x0.flags [c]) p0 [] t x0 hx0
            rw [List.append_nil] at this
            rw [ht1, this]
            rfl
          obtain ⟨t2, hloop, hprops, hout⟩ :=
            ih t1 (fun p hp => by rw [ht1at p hp]; exact hval p (by simp [hp]))
              (List.pairwise_cons.mp hpair).2
          refine ⟨t2, ?_, ?_, ?_⟩
          · simp [changelog_op_loop, happ, hloop]
          · intro p hp x hxp
            rcases List.mem_cons.mp hp with rfl | hp'
            · have hxx : x = x0 := by rw [hx0] at hxp; exact (Option.some_inj.mp hxp).symm
              subst hxx
              constructor
              · intro _
                rw [hout p (fun q hq => ⟨(hdisj q hq).2, (hdisj q hq).1⟩)]
                exact ht1p0
              · intro hcon; rw [hcon] at hpass; cases hpass
            · exact hprops p hp' x (by rw [ht1at p hp']; exact hxp)
          · intro q hq
            rw [hout q (fun p hp => hq p (by simp [hp]))]
            exact nodeAt_modifyAt_disjoint _ t (hq p0 (by simp)).1 (hq p0 (by simp)).2

/-- The replace loop errors out as soon as some valid match passes the when
filter while new is absent or does not carry exactly one child. -/
theorem changelog_replace_loop_err (s : ClStep)
    (hbad : s.newX = none ∨ ∃ xn, s.newX = some xn ∧ xn.children.length ≠ 1) :
    ∀ (ps : List XPathIdx) (t : Cxobj),
      (∃ p ∈ ps, ∃ x, nodeAt t p = some x ∧ stepWhenPass s x = true) →
      changelog_op_loop s "replace" ps t = none := by
  intro ps
  induction ps with
  | nil =>
      intro t hex
      simp at hex
  | cons p0 ps' ih =>
      intro t hex
      have hbadrepl : ∀ x0, changelog_replace x0 s.newX = none := by
        intro x0
        rcases hbad with h | ⟨xn, hxn, hlen⟩
        · rw [h]; rfl
        · rw [hxn]; simp [changelog_replace, hlen]
      cases hn : nodeAt t p0 with
      | none => simp [changelog_op_loop, changelog_op_apply, hn]
      | some x0 =>
          cases hpass : stepWhenPass s x0 with
          | true =>
              simp [changelog_op_loop, changelog_op_apply, hn, hpass, hbadrepl x0]
          | false =>
              have happ : changelog_op_apply s "replace" t p0 = some t := by
                simp [changelog_op_apply, hn, hpass]
              simp only [changelog_op_loop, happ]
              apply ih
              obtain ⟨p, hp, x, hxp, hxpass⟩ := hex
              rcases List.mem_cons.mp hp with rfl | hp'
              · rw [hn] at hxp
                cases Option.some_inj.mp hxp
                rw [hxpass] at hpass
                cases hpass
              · exact ⟨p, hp', x, hxp, hxpass⟩

/-- C7: for a changelog replace step, every matched node that passes the
optional when filter has its children deleted and receives a deep copy of
the single child of new; a when-rejected match is left alone; and the step
fails with an error when some match passes the filter while new is absent
or has a number of children different from one. -/
theorem c7_changelog_replace_semantics (xt : Cxobj) (s : ClStep)
    (sel : Cxobj → List XPathIdx)
    (hop : s.op = some "replace") (hsel : s.whereSel = some sel)
    (hvalid : ∀ p ∈ sel xt, (nodeAt xt p).isSome = true)
    (hpair : (sel xt).Pairwise (fun p q => ¬ p <+: q ∧ ¬ q <+: p)) :
    (∀ xn c, s.newX = some xn → xn.children = [c] →
      ∃ xt2, changelog_op xt s = some xt2 ∧
        ∀ p ∈ sel xt, ∀ x, nodeAt xt p = some x →
          (stepWhenPass s x = true →
            nodeAt xt2 p = some (Cxobj.mk x.name x.nsp x.typ x.value x.flags [c])) ∧
          (stepWhenPass s x = false → nodeAt xt2 p = some x)) ∧
    ((s.newX = none ∨ ∃ xn, s.newX = some xn ∧ xn.children.length ≠ 1) →
      (∃ p ∈ sel xt, ∃ x, nodeAt xt p = some x ∧ stepWhenPass s x = true) →
      changelog_op xt s = none) := by
  constructor
  · intro xn c hnew hc
    obtain ⟨t2, hloop, hprops, _⟩ :=
      changelog_replace_loop_ok s xn c hnew hc (sel xt) xt hvalid hpair
    exact ⟨t2, by simp [changelog_op, hop, hsel, hloop], hprops⟩
  · intro hbad hex
    simp only [changelog_op, hop, hsel]
    exact changelog_replace_loop_err s hbad (sel xt) xt hex

/-- The where selector of the replace witness. -/
def c7sel : Cxobj → List XPathIdx := fun _ => [[0]]

/-- The new element of the replace witness, with a single child. -/
def c7new : Cxobj :=
  .mk "new" none .elmnt none 0 [.mk "n1" none .elmnt none 0 []]

/-- The replace step of the witness. -/
def c7step : ClStep := ⟨some "replace", some c7sel, none, none, none, some c7new⟩

/-- The tree the replace witness runs on. -/
def c7tree : Cxobj :=
  .mk "config" none .elmnt none 0
    [.mk "a" none .elmnt none 0 [.mk "b" none .elmnt none 0 []]]

/-- Witness for C7 on a concrete replace step: the match loses its children
and receives the single child of new. -/
theorem c7_witness :
    c7step.op = some "replace" ∧ c7step.whereSel = some c7sel ∧
    (∀ p ∈ c7sel c7tree, (nodeAt c7tree p).isSome = true) ∧
    (c7sel c7tree).Pairwise (fun p q => ¬ p <+: q ∧ ¬ q <+: p) ∧
    ∃ xt2, changelog_op c7tree c7step = some xt2 ∧
      nodeAt xt2 [0] =
        some (Cxobj.mk "a" none .elmnt none 0
          [Cxobj.mk "n1" none .elmnt none 0 []]) := by
  refine ⟨rfl, rfl, by decide, by simp [c7sel], ?_⟩
  obtain ⟨xt2, heq, hprops⟩ :=
    (c7_changelog_replace_semantics c7tree c7step c7sel rfl rfl (by decide)
      (by simp [c7sel])).1
      c7new (Cxobj.mk "n1" none .elmnt none 0 []) rfl rfl
  refine ⟨xt2, heq, ?_⟩
  have hres := (hprops [0] (by simp [c7sel])
    (Cxobj.mk "a" none .elmnt none 0 [Cxobj.mk "b" none .elmnt none 0 []])
    (by rfl)).1 (by rfl)
  simpa using hres

/-- Indentation unit of the pretty printer (clixon_custom.h). -/
def PRETTYPRINT_INDENT : Nat := 3

/-- The %*s padding of cprintf: n spaces, none for non-positive widths. -/
def pad (n : Int) : String := String.mk (List.replicate n.toNat ' ')

/-- Modelled from the spec: xml_chardata_encode (clixon_string.c is not part
of the source under review) — character data on output must encode the
characters <, >, &, apostrophe and double quote as XML entities. -/
def escapeChar (c : Char) : List Char :=
  if c = '&' then ['&', 'a', 'm', 'p', ';']
  else if c = '<' then ['&', 'l', 't', ';']
  else if c = '>' then ['&', 'g', 't', ';']
  else if c = '\'' then ['&', 'a', 'p', 'o', 's', ';']
  else if c = '"' then ['&', 'q', 'u', 'o', 't', ';']
  else [c]

/-- Modelled from the spec: the character-data encoder applied to a whole
string (also standing for xml_chardata_cbuf_append). -/
def xml_chardata_encode (s : String) : String :=
  ⟨(s.data.map escapeChar).join⟩

/-- Recognize the tail of one of the five XML entities after an ampersand,
returning the remaining characters. -/
def entTail (r : List Char) : Option (List Char) :=
  if r.take 4 = ['a', 'm', 'p', ';'] then some (r.drop 4)
  else if r.take 3 = ['l', 't', ';'] then some (r.drop 3)
  else if r.take 3 = ['g', 't', ';'] then some (r.drop 3)
  else if r.take 5 = ['a', 'p', 'o', 's', ';'] then some (r.drop 5)
  else if r.take 5 = ['q', 'u', 'o', 't', ';'] then some (r.drop 5)
  else none

/-- The entity tail is no longer than its input. -/
theorem entTail_length {r r2 : List Char} (h : entTail r = some r2) :
    r2.length ≤ r.length := by
  simp only [entTail] at h
  split_ifs at h <;> cases h <;> simp [List.length_drop]

/-- Scanner for raw special characters: true iff the character list holds
no raw <, >, apostrophe or double quote, and every ampersand starts one of
the five XML entities. -/
def ampOk : List Char → Bool
  | [] => true
  | c :: r =>
    if c = '<' ∨ c = '>' ∨ c = '\'' ∨ c = '"' then false
    else if c = '&' then
      match hET : entTail r with
      | some r2 => ampOk r2
      | none => false
    else ampOk r
termination_by l => l.length
decreasing_by
  all_goals simp only [List.length_cons]
  all_goals
    first
    | exact Nat.lt_succ_of_le (entTail_length hET)
    | exact Nat.lt_succ_self _

mutual
/-- Internal print of an XML tree to a cligen buffer (clixon_xml2cbuf1):
bodies are chardata-encoded, attributes print raw, elements print their
tags, attributes and non-attribute children. -/
def clixon_xml2cbuf1 (x : Cxobj) (level : Nat) (pretty : Bool)
    (pfx : Option String) (depth : Int) : String :=
  if depth = 0 then ""
  else
    match x with
    | .mk nm ns ty v fl cs =>
      let level1 : Int := (level * PRETTYPRINT_INDENT : Nat) - (pfx.getD "").length
      match ty with
      | .body =>
        match v with
        | none => ""
        | some val => xml_chardata_encode val
      | .attr =>
        " " ++ (match ns with | some s2 => s2 ++ ":" | none => "") ++ nm ++
          "=\"" ++ v.getD "" ++ "\""
      | .elmnt =>
        let hasbody := cs.any (fun c => decide (c.typ = .body))
        let haselement := cs.any (fun c => decide (c.typ = .elmnt))
        let opening :=
          (if pretty then (pfx.getD "") ++ pad level1 else "") ++ "<" ++
            (match ns with | some s2 => s2 ++ ":" | none => "") ++ nm ++
            xml2cbuf_attrs cs (level + 1) pretty pfx
        let s1 :=
          if ¬ hasbody ∧ ¬ haselement then opening ++ "/>"
          else
            opening ++ ">" ++ (if pretty ∧ ¬ hasbody then "\n" else "") ++
            xml2cbuf_children cs (level + 1) pretty pfx (depth - 1) ++
            (if pretty ∧ ¬ hasbody then (pfx.getD "") ++ pad level1 else "") ++
            "</" ++ (match ns with | some s2 => s2 ++ ":" | none => "") ++ nm ++ ">"
        s1 ++ (if pretty then "\n" else "")

/-- The attribute pass of the element case. -/
def xml2cbuf_attrs (cs : List Cxobj) (level : Nat) (pretty : Bool)
    (pfx : Option String) : String :=
  match cs with
  | [] => ""
  | c :: cs2 =>
      (if c.typ = .attr then clixon_xml2cbuf1 c level pretty pfx (-1) else "") ++
      xml2cbuf_attrs cs2 level pretty pfx

/-- The non-attribute child pass of the element case. -/
def xml2cbuf_children (cs : List Cxobj) (level : Nat) (pretty : Bool)
    (pfx : Option String) (depth : Int) : String :=
  match cs with
  | [] => ""
  | c :: cs2 =>
      (if c.typ ≠ .attr then clixon_xml2cbuf1 c level pretty pfx depth else "") ++
      xml2cbuf_children cs2 level pretty pfx depth
end

mutual
/-- Print of an XML tree to an output stream (xml2file_recurse): the same
layout as the cbuf printer, with the autocli hide-show extension check at
the top (the yang extension lookup is abstracted by hideF). -/
def xml2file_recurse (x : Cxobj) (level : Nat) (pretty : Bool)
    (pfx : Option String) (autocliext : Bool) (hideF : Cxobj → Bool) : String :=
  if autocliext && hideF x then ""
  else
    match x with
    | .mk nm ns ty v fl cs =>
      let level1 : Int := (level * PRETTYPRINT_INDENT : Nat) - (pfx.getD "").length
      match ty with
      | .body =>
        match v with
        | none => ""
        | some val => xml_chardata_encode val
      | .attr =>
        " " ++ (match ns with | some s2 => s2 ++ ":" | none => "") ++ nm ++
          "=\"" ++ v.getD "" ++ "\""
      | .elmnt =>
        let hasbody := cs.any (fun c => decide (c.typ = .body))
        let haselement := cs.any (fun c => decide (c.typ = .elmnt))
        let opening :=
          (if pretty then (pfx.getD "") ++ pad level1 else "") ++ "<" ++
            (match ns with | some s2 => s2 ++ ":" | none => "") ++ nm ++
            xml2file_attrs cs (level + 1) pretty pfx autocliext hideF
        let s1 :=
          if ¬ hasbody ∧ ¬ haselement then opening ++ "/>"
          else
            opening ++ ">" ++ (if pretty ∧ ¬ hasbody then "\n" else "") ++
            xml2file_children cs (level + 1) pretty pfx autocliext hideF ++
            (if pretty ∧ ¬ hasbody then (pfx.getD "") ++ pad level1 else "") ++
            "</" ++ (match ns with | some s2 => s2 ++ ":" | none => "") ++ nm ++ ">"
        s1 ++ (if pretty then "\n" else "")

/-- The attribute pass of the element case. -/
def xml2file_attrs (cs : List Cxobj) (level : Nat) (pretty : Bool)
    (pfx : Option String) (autocliext : Bool) (hideF : Cxobj → Bool) : String :=
  match cs with
  | [] => ""
  | c :: cs2 =>
      (if c.typ = .attr then xml2file_recurse c level pretty pfx autocliext hideF
        else "") ++
      xml2file_attrs cs2 level pretty pfx autocliext hideF

/-- The non-attribute child pass of the element case. -/
def xml2file_children (cs : List Cxobj) (level : Nat) (pretty : Bool)
    (pfx : Option String) (autocliext : Bool) (hideF : Cxobj → Bool) : String :=
  match cs with
  | [] => ""
  | c :: cs2 =>
      (if c.typ ≠ .attr then xml2file_recurse c level pretty pfx autocliext hideF
        else "") ++
      xml2file_children cs2 level pretty pfx autocliext hideF
end

/-- An encoded character list scans clean: raw specials never survive the
encoder, ampersands only start entities. -/
theorem ampOk_escList (l : List Char) : ampOk ((l.map escapeChar).join) = true := by
  induction l with
  | nil => simp only [List.map_nil, List.join_nil]; rw [ampOk]
  | cons c t ih =>
      simp only [List.map_cons, List.join_cons]
      by_cases h1 : c = '&'
      · subst h1
        have hred : ∀ r, ampOk (escapeChar '&' ++ r) = ampOk r := by
          intro r
          show ampOk ('&' :: 'a' :: 'm' :: 'p' :: ';' :: r) = ampOk r
          rw [ampOk]
          simp [entTail]
        rw [hred]
        exact ih
      · by_cases h2 : c = '<'
        · subst h2
          have hred : ∀ r, ampOk (escapeChar '<' ++ r) = ampOk r := by
            intro r
            show ampOk ('&' :: 'l' :: 't' :: ';' :: r) = ampOk r
            rw [ampOk]
            simp [entTail]
          rw [hred]
          exact ih
        · by_cases h3 : c = '>'
          · subst h3
            have hred : ∀ r, ampOk (escapeChar '>' ++ r) = ampOk r := by
              intro r
              show ampOk ('&' :: 'g' :: 't' :: ';' :: r) = ampOk r
              rw [ampOk]
              simp [entTail]
            rw [hred]
            exact ih
          · by_cases h4 : c = '\''
            · subst h4
              have hred : ∀ r, ampOk (escapeChar '\'' ++ r) = ampOk r := by
                intro r
                show ampOk ('&' :: 'a' :: 'p' :: 'o' :: 's' :: ';' :: r) = ampOk r
                rw [ampOk]
                simp [entTail]
              rw [hred]
              exact ih
            · by_cases h5 : c = '"'
              · subst h5
                have hred : ∀ r, ampOk (escapeChar '"' ++ r) = ampOk r := by
                  intro r
                  show ampOk ('&' :: 'q' :: 'u' :: 'o' :: 't' :: ';' :: r) = ampOk r
                  rw [ampOk]
                  simp [entTail]
                rw [hred]
                exact ih
              · have hesc : escapeChar c = [c] := by
                  simp [escapeChar, h1, h2, h3, h4, h5]
                rw [hesc, List.singleton_append]
                have hred : ampOk (c :: (t.map escapeChar).join) =
                    ampOk ((t.map escapeChar).join) := by
                  rw [ampOk]
                  simp [h1, h2, h3, h4, h5]
                rw [hred]
                exact ih

/-- C8: both serializers apply the character-data encoder to every body
value they print, and the encoder leaves no unescaped occurrence of <, >,
&, apostrophe or double quote: raw specials are absent from its output and
every ampersand it emits starts an XML entity. -/
theorem c8_chardata_encoded_on_output (x : Cxobj) (level : Nat) (pretty : Bool)
    (pfx : Option String) (depth : Int) (autocliext : Bool)
    (hideF : Cxobj → Bool) (v s : String)
    (hty : x.typ = .body) (hv : x.value = some v) (hd : depth ≠ 0)
    (hno : (autocliext && hideF x) = false) :
    clixon_xml2cbuf1 x level pretty pfx depth = xml_chardata_encode v ∧
    xml2file_recurse x level pretty pfx autocliext hideF = xml_chardata_encode v ∧
    ampOk (xml_chardata_encode s).data = true := by
  refine ⟨?_, ?_, ?_⟩
  · cases x with
    | mk nm ns ty v0 fl cs =>
      simp only [Cxobj_typ_mk] at hty
      simp only [Cxobj_value_mk] at hv
      subst hty
      subst hv
      simp [clixon_xml2cbuf1, hd]
  · cases x with
    | mk nm ns ty v0 fl cs =>
      simp only [Cxobj_typ_mk] at hty
      simp only [Cxobj_value_mk] at hv
      subst hty
      subst hv
      simp [xml2file_recurse, hno]
  · show ampOk ((s.data.map escapeChar).join) = true
    exact ampOk_escList s.data

/-- A concrete body node holding raw special characters. -/
def c8body : Cxobj := .mk "body" none .body (some "a<b>&c") 0 []

/-- Witness for C8 on a concrete body node. -/
theorem c8_witness :
    c8body.typ = .body ∧ c8body.value = some "a<b>&c" ∧ ((-1 : Int) ≠ 0) ∧
    ((false && (fun _ => false) c8body) = false) ∧
    (clixon_xml2cbuf1 c8body 0 false none (-1) = xml_chardata_encode "a<b>&c" ∧
     xml2file_recurse c8body 0 false none false (fun _ => false) =
       xml_chardata_encode "a<b>&c" ∧
     ampOk (xml_chardata_encode "a<b>&c").data = true) :=
  ⟨rfl, rfl, by decide, rfl,
    c8_chardata_encoded_on_output c8body 0 false none (-1) false
      (fun _ => false) "a<b>&c" "a<b>&c" rfl rfl (by decide) rfl⟩

end Clixon
